import Mathlib

/-!
Verification development for the discobase storage engine.

Shallow embedding of the table cursor (`src/discobase/_cursor.py`), the
schema binding (`src/discobase/table.py`) and the metadata model
(`src/discobase/_metadata.py`).  Stateful code is modelled by explicit
state passing over a `TableState`; fallible code returns `Except DbError`.
Python's arbitrary-precision integers are modelled by `Int`, message ids
and sizes by `Nat`.
-/

namespace Discobase

deriving instance DecidableEq for Except

/-- Errors the engine can raise.  The first five model the classes of
`discobase/exceptions.py` (`DatabaseCorruptionError`, `DatabaseStorageError`,
`NotConnectedError`, `DatabaseTableError`, `DatabaseLookupError`); the next
four model Python/library-level errors the code can hit (`TypeError` from
calling `hash()` on a plain `dict`, `ValueError` from `list.remove`,
`ZeroDivisionError` from `% 0`, discord's `NotFound` from
`fetch_message`, `KeyError` from an `index_channels` lookup).
`unmodeledResize` marks the single place this embedding stops instead of
following the code: the channel-rehash pass of `_resize_table`; every
theorem below that runs an operation includes a hypothesis keeping
`current_records` low enough that no resize is triggered. -/
inductive DbError where
  | corruption
  | storage
  | notConnected
  | tableError
  | lookupFailed
  | typeError
  | valueError
  | zeroDivision
  | notFound
  | keyError
  | unmodeledResize
  deriving DecidableEq

/-- Models `TableCursor._to_index` (`_cursor.py` lines 183-198):
`(value & 0x7FFFFFFF) % self.metadata.max_records`.  On Python's
arbitrary-precision signed integers, `value & 0x7FFFFFFF` (two's
complement AND with the 31-bit mask `2^31 - 1`) is exactly the
mathematical residue `value mod 2^31`, which `Int.emod` with a positive
modulus computes; the outer `%` on a non-negative left operand is `Nat`
remainder. -/
def to_index (value : Int) (max_records : Nat) : Nat :=
  (value.emod (2 ^ 31)).toNat % max_records

/-- Written from the spec's words, for comparison with `to_index`: the spec
says `to_bucket_index` masks "the hash to a 63-bit (non-negative) integer"
before reducing modulo the capacity. -/
def to_bucket_index_spec63 (value : Int) (capacity : Nat) : Nat :=
  (value.emod (2 ^ 63)).toNat % capacity

/-! ### Values and `_hash` (C5)

`TableCursor._hash` (`_cursor.py` lines 200-245) dispatches on the runtime
type of the field value, in `isinstance` order: `str`, `dict`, `Iterable`,
`int`, otherwise `DatabaseStorageError`.  The mutual inductive below is the
value universe; `pother` stands for any value matching none of the branches
(for discobase e.g. a `float`). -/

mutual
inductive PyVal where
  | pstr (s : String)
  | pint (n : Int)
  | plist (xs : PyValList)
  | pdict (kvs : PyValPairs)
  | pother
  deriving DecidableEq

inductive PyValList where
  | nil
  | cons (x : PyVal) (xs : PyValList)
  deriving DecidableEq

inductive PyValPairs where
  | nil
  | cons (k v : PyVal) (rest : PyValPairs)
  deriving DecidableEq
end

mutual
/-- Models `TableCursor._hash`.  `sha1` abstracts
`int(hashlib.sha1(value.encode("utf-8")).hexdigest(), 16)` on the string
branch and `tupleHash` abstracts CPython's `hash(tuple(...))` combination
of the element hashes (wrapped in `_HashTransport`, whose `__hash__`
returns the stored number); both are deterministic functions.  The `dict`
branch first hashes every key and value while building the
`_HashTransport` transport dict, and then calls Python's `hash()` on that
plain `dict` — `dict` defines no `__hash__`, so this raises `TypeError`,
modelled by `.error .typeError`.  Values with no branch raise
`DatabaseStorageError` (`.error .storage`). -/
def pyHash (sha1 : String → Int) (tupleHash : List Int → Int) : PyVal → Except DbError Int
  | .pstr s => .ok (sha1 s)
  | .pdict kvs => do
      pyHashPairs sha1 tupleHash kvs
      .error .typeError
  | .plist xs => do
      let hs ← pyHashList sha1 tupleHash xs
      .ok (tupleHash hs)
  | .pint n => .ok n
  | .pother => .error .storage

/-- Hashes of the elements of an iterable, in order (the `for item in value`
loop of the `Iterable` branch). -/
def pyHashList (sha1 : String → Int) (tupleHash : List Int → Int) :
    PyValList → Except DbError (List Int)
  | .nil => .ok []
  | .cons x xs => do
      let h ← pyHash sha1 tupleHash x
      let rest ← pyHashList sha1 tupleHash xs
      .ok (h :: rest)

/-- The `for k, v in value.items()` loop of the `dict` branch: each key and
value is hashed (errors propagate) before the final fatal `hash(transport)`
call. -/
def pyHashPairs (sha1 : String → Int) (tupleHash : List Int → Int) :
    PyValPairs → Except DbError Unit
  | .nil => .ok ()
  | .cons k v rest => do
      let _ ← pyHash sha1 tupleHash k
      let _ ← pyHash sha1 tupleHash v
      pyHashPairs sha1 tupleHash rest
end

/-! ### Collision search (C9)

`TableCursor._find_collision_message` (`_cursor.py` lines 119-165). -/

/-- Outcome of the probe loop.  `found offset a` models returning the
message at `offset`; `corrupt` models the `DatabaseCorruptionError` raised
when the offset wraps all the way back to the starting index; `lookFail`
models `_lookup_message` itself raising (index outside every range);
`fuelOut` is the artificial fuel-exhaustion marker of the embedding — the
theorems show it is never produced when the search starts inside the
table. -/
inductive ProbeResult (α : Type) where
  | found (offset : Nat) (val : α)
  | corrupt
  | lookFail
  | fuelOut
  deriving DecidableEq

/-- Body of the `while True` loop of `_find_collision_message`: first step
the offset (`offset = 0` when `offset + 1 >= max_records`, else
`offset + 1`), then compare against the starting index (full wrap-around
means corruption), then look up and test the message. -/
def find_collision_go (look : Nat → Option α) (p : α → Bool) (max_records index : Nat) :
    Nat → Nat → ProbeResult α
  | 0, _ => .fuelOut
  | fuel + 1, offset =>
    let offset2 := if offset + 1 ≥ max_records then 0 else offset + 1
    if offset2 = index then .corrupt
    else
      match look offset2 with
      | none => .lookFail
      | some a =>
        if p a then .found offset2 a
        else find_collision_go look p max_records index fuel offset2

/-- Models `TableCursor._find_collision_message`: run the loop from the
starting index.  Fuel `max_records` is enough for the loop to reach its
wrap-around check, as proved below. -/
def find_collision_message (look : Nat → Option α) (p : α → Bool)
    (max_records index : Nat) : ProbeResult α :=
  find_collision_go look p max_records index max_records index

/-- The order in which the loop visits buckets: linearly forward from the
slot after `index`, wrapping at `max_records`, covering every slot except
the starting one. -/
def probe_seq (max_records index : Nat) : List Nat :=
  (List.range (max_records - 1)).map (fun k => (index + 1 + k) % max_records)

/-- Reference scan: return the first offset in the list whose message
satisfies the predicate, `corrupt` when none does, `lookFail` when a lookup
fails first. -/
def first_match (look : Nat → Option α) (p : α → Bool) : List Nat → ProbeResult α
  | [] => .corrupt
  | o :: rest =>
    match look o with
    | none => .lookFail
    | some a => if p a then .found o a else first_match look p rest

/-! ### Table state and the record operations (C1, C2, C3, C4, C8)

One logical table, its index channels and its metadata, as the single
cursor owning it sees them.  A message of an index channel is either the
literal `"null"` tombstone or a serialized `_IndexableRecord`. -/

/-- Models `_IndexableRecord` (`_cursor.py` lines 44-75): the parsed content
of a non-tombstone index-bucket message.  The `next_value` staging field is
omitted: the code populates it only inside `_resize_channel`, which this
embedding does not follow into (`DbError.unmodeledResize`); in every state
the modelled operations reach it is `None`. -/
structure IndexEntry where
  key : Int
  record_ids : List Nat
  deriving DecidableEq

/-- An index-channel slot: `none` models the `"null"` tombstone message. -/
abbrev Bucket := Option IndexEntry

/-- State of one table, combining the in-memory `Metadata` object, the
persisted copy of it held by the metadata message, the primary channel and
the per-field index channels.

* `main`: the primary channel, as `(message id, decoded field values)` in
  send order (`metadata.table_channel`).
* `chans`: one bucket array per schema field, in field order
  (`metadata.index_channels`); `_lookup_message` resolves a logical index
  to the message at that position.
* `current_records`, `max_records`: the in-memory counters of `Metadata`.
* `persisted_current`, `persisted_max`: the counters as last written to the
  metadata message by `_edit_message(metadata_channel, message_id, ...)`.
* `next_id`: the next message id the store will assign (ids increase). -/
structure TableState (V : Type) where
  main : List (Nat × List V)
  chans : List (List Bucket)
  current_records : Int
  max_records : Nat
  persisted_current : Int
  persisted_max : Nat
  next_id : Nat
  deriving DecidableEq

/-- Models the metadata projection of `TableCursor._inc_records`
(`_cursor.py` lines 532-548) together with `_resize_table` (506-530):
increment `current_records`; when it strictly exceeds `max_records`,
`_resize_table` doubles `max_records` (`metadata.max_records *= 2`) before
the metadata is persisted.  The channel-rehash passes of `_resize_channel`
touch only channel contents, not these counters. -/
def inc_records_meta (current max_records : Int) : Int × Int :=
  let cur := current + 1
  if cur > max_records then (cur, max_records * 2) else (cur, max_records)

/-- Decrement of `current_records` as performed by `update_record` (line
706) and `delete_record` (line 1001) when a bucket is tombstoned. -/
def dec_records_meta (current : Int) : Int :=
  current - 1

/-- Models `TableCursor._inc_records` at the table level: increment the
counter, then persist the metadata message.  The resize branch
(`current_records > max_records`) is where the embedding stops
(`unmodeledResize`); all theorems below run under a no-resize
hypothesis. -/
def inc_records (st : TableState V) : Except DbError (TableState V) :=
  let cur := st.current_records + 1
  if cur > (st.max_records : Int) then .error .unmodeledResize
  else .ok { st with
    current_records := cur
    persisted_current := cur
    persisted_max := st.max_records }

/-- Models `TableCursor._lookup_message` (`_cursor.py` lines 258-326) on a
bucket array: return the message at the logical index, raising
`DatabaseCorruptionError` when the index is outside every `time_table`
range (here: outside the array). -/
def lookup_message (ch : List Bucket) (index : Nat) : Except DbError Bucket :=
  match ch[index]? with
  | some b => .ok b
  | none => .error .corruption

/-- Models `TableCursor._as_hashed` (`_cursor.py` lines 247-255) given the
already-computed integer hash: pair it with its bucket index.  When
`max_records = 0` Python's `%` raises `ZeroDivisionError`. -/
def as_hashed (hashed : Int) (st : TableState V) : Except DbError (Int × Nat) :=
  if st.max_records = 0 then .error .zeroDivision
  else .ok (hashed, to_index hashed st.max_records)

/-- Models `TableCursor._write_index_record` (`_cursor.py` lines 550-608)
against the index channel of field `f`.  Three branches on the bucket at
`index`:
* tombstone: `_inc_records()` (which persists the metadata), then edit the
  message to `{key: hashed, record_ids: [record_id]}`;
* same key: append `record_id` to the existing `record_ids` (no counter
  increment, per issue #50), edit in place;
* different key (collision): `_inc_records()`, then linear-probe for a
  tombstone and write the fresh entry there.  `corrupt`, `lookFail` and
  `fuelOut` all surface as `DatabaseCorruptionError`. -/
def write_index_record (st : TableState V) (f index : Nat) (hashed : Int)
    (record_id : Nat) : Except DbError (TableState V) :=
  match st.chans[f]? with
  | none => .error .keyError
  | some ch =>
    match lookup_message ch index with
    | .error e => .error e
    | .ok none => do
        let st' ← inc_records st
        .ok { st' with chans :=
          st'.chans.set f (ch.set index (some ⟨hashed, [record_id]⟩)) }
    | .ok (some e) =>
      if e.key = hashed then
        .ok { st with chans :=
          st.chans.set f (ch.set index (some ⟨e.key, e.record_ids ++ [record_id]⟩)) }
      else do
        let st' ← inc_records st
        match find_collision_message (fun j => ch[j]?) (fun b => b.isNone)
            st'.max_records index with
        | .found off _ =>
            .ok { st' with chans :=
              st'.chans.set f (ch.set off (some ⟨hashed, [record_id]⟩)) }
        | _ => .error .corruption

/-- The per-field loop of `TableCursor.add_record` (`_cursor.py` lines
630-640): for each schema field in order, hash the value, compute the
bucket index from the current `max_records`, and write the index record.
Fields are modelled positionally: field `i` of the schema owns channel
`chans[i]`. -/
def add_record_fields (hsh : V → Int) (record_id : Nat) :
    List (Nat × V) → TableState V → Except DbError (TableState V)
  | [], st => .ok st
  | (f, v) :: rest, st => do
      let (hashed, idx) ← as_hashed (hsh v) st
      let st' ← write_index_record st f idx hashed record_id
      add_record_fields hsh record_id rest st'

/-- Models `TableCursor.add_record` (`_cursor.py` lines 610-642): send the
encoded record to the primary channel (the store assigns the next id),
then run the per-field index writes, then re-edit the primary message (a
no-op on this state).  Returns the new record's location. -/
def add_record (hsh : V → Int) (st : TableState V) (vals : List V) :
    Except DbError (Nat × TableState V) := do
  let id := st.next_id
  let st1 := { st with main := st.main ++ [(id, vals)], next_id := id + 1 }
  let st2 ← add_record_fields hsh id (vals.enum) st1
  .ok (id, st2)

/-- The per-field set resolution loop of `TableCursor.find_records`
(`_cursor.py` lines 738-792).  For each `(field, value)` pair: unknown
field raises `DatabaseLookupError`; a tombstoned home bucket contributes
no set at all (the `continue`); a matching key contributes its
`record_ids` as a set (modelled as a deduplicated list); a key mismatch
runs the collision search with the exact-key predicate `find_hash` and
contributes the found entry's ids.  Sets are collected in query order. -/
def find_sets (hsh : V → Int) (st : TableState V) :
    List (Nat × V) → Except DbError (List (List Nat))
  | [] => .ok []
  | (f, v) :: rest =>
    match st.chans[f]? with
    | none => .error .lookupFailed
    | some ch => do
      let (hashed, idx) ← as_hashed (hsh v) st
      match lookup_message ch idx with
      | .error e => .error e
      | .ok none => find_sets hsh st rest
      | .ok (some e) =>
        if e.key = hashed then do
          let sets ← find_sets hsh st rest
          .ok (e.record_ids.dedup :: sets)
        else
          match find_collision_message (fun j => ch[j]?)
              (fun b => match b with
                | none => false
                | some e2 => e2.key == hashed)
              st.max_records idx with
          | .found _ none => .error .corruption
          | .found _ (some e2) => do
              let sets ← find_sets hsh st rest
              .ok (e2.record_ids.dedup :: sets)
          | _ => .error .corruption

/-- The final double loop of `find_records` (`_cursor.py` lines 810-818):
every id of every collected set is fetched from the primary channel
(discord raises `NotFound` for an id that is not there) and its decoded
record appended to the result.  Modelled by the list of fetched ids. -/
def fetch_all (st : TableState V) : List Nat → Except DbError (List Nat)
  | [] => .ok []
  | id :: rest =>
    if (st.main.lookup id).isSome then do
      let r ← fetch_all st rest
      .ok (id :: r)
    else .error .notFound

/-- Models `TableCursor.find_records` (`_cursor.py` lines 716-818),
returning the locations of the returned records in result order.  The
collected per-field sets are NOT intersected: the final loop appends every
id of every set (`for record_ids in sets_list: for record_id in
record_ids: ... records.append(...)`).  An empty query scans the primary
channel instead (newest first) and yields every record once. -/
def find_records (hsh : V → Int) (st : TableState V) (query : List (Nat × V)) :
    Except DbError (List Nat) := do
  let sets ← find_sets hsh st query
  let sets := if query.isEmpty then st.main.reverse.map (fun p => [p.1]) else sets
  fetch_all st sets.flatten

/-- The per-field loop of `TableCursor.update_record` (`_cursor.py` lines
668-713), over `(field, new value, old value)` triples from zipping the
new and old model dumps.  Unchanged values are skipped.  For a changed
value: write an index entry for the new value exactly as in insert, then
resolve the OLD value's home bucket (no collision search and no key
check): a tombstone there is `DatabaseCorruptionError`; a singleton
`record_ids` is nullified with `current_records` decremented (and NOT
persisted); otherwise `record_ids.remove(msg.id)` — Python's
`list.remove` raises `ValueError` when the id is absent. -/
def update_fields [DecidableEq V] (hsh : V → Int) (record_id : Nat) :
    List (Nat × V × V) → TableState V → Except DbError (TableState V)
  | [], st => .ok st
  | (f, newV, oldV) :: rest, st =>
    if newV = oldV then update_fields hsh record_id rest st
    else do
      let (hashed, idx) ← as_hashed (hsh newV) st
      let st1 ← write_index_record st f idx hashed record_id
      let (_, oldIdx) ← as_hashed (hsh oldV) st1
      match st1.chans[f]? with
      | none => .error .keyError
      | some ch =>
        match lookup_message ch oldIdx with
        | .error e => .error e
        | .ok none => .error .corruption
        | .ok (some e) =>
          if e.record_ids.length = 1 then
            update_fields hsh record_id rest
              { st1 with
                chans := st1.chans.set f (ch.set oldIdx none)
                current_records := dec_records_meta st1.current_records }
          else
            if record_id ∈ e.record_ids then
              let ch' := ch.set oldIdx (some ⟨e.key, e.record_ids.erase record_id⟩)
              update_fields hsh record_id rest
                { st1 with chans := st1.chans.set f ch' }
            else .error .valueError

/-- Models `TableCursor.update_record` (`_cursor.py` lines 644-714): an
unsaved record (`__disco_id__ == -1`) raises `DatabaseCorruptionError`;
otherwise fetch and decode the current primary message, overwrite it with
the new encoding, and reconcile each changed field.  The field-name
equality check of the zip loop always passes in this positional model. -/
def update_record [DecidableEq V] (hsh : V → Int) (st : TableState V) (discoId : Int)
    (newVals : List V) : Except DbError (TableState V) :=
  if discoId = -1 then .error .corruption
  else
    match st.main.find? (fun p => (p.1 : Int) == discoId) with
    | none => .error .notFound
    | some (id, oldVals) =>
      let st1 := { st with
        main := st.main.map (fun p => if p.1 = id then (id, newVals) else p) }
      update_fields hsh id
        (((newVals.zip oldVals).enum).map (fun q => (q.1, q.2.1, q.2.2))) st1

/-- The per-field loop of `TableCursor.delete_record` (`_cursor.py` lines
986-1009): for each field of the decoded current record, resolve the home
bucket of its value (again without collision search or key check); a
tombstone is `DatabaseCorruptionError`; a singleton `record_ids` is
nullified with `current_records` decremented (and NOT persisted);
otherwise the id is removed (`ValueError` when absent). -/
def delete_fields (hsh : V → Int) (record_id : Nat) :
    List (Nat × V) → TableState V → Except DbError (TableState V)
  | [], st => .ok st
  | (f, v) :: rest, st =>
    match st.chans[f]? with
    | none => .error .keyError
    | some ch => do
      let (_, idx) ← as_hashed (hsh v) st
      match lookup_message ch idx with
      | .error e => .error e
      | .ok none => .error .corruption
      | .ok (some e) =>
        if e.record_ids.length = 1 then
          delete_fields hsh record_id rest
            { st with
              chans := st.chans.set f (ch.set idx none)
              current_records := dec_records_meta st.current_records }
        else
          if record_id ∈ e.record_ids then
            let ch' := ch.set idx (some ⟨e.key, e.record_ids.erase record_id⟩)
            delete_fields hsh record_id rest
              { st with chans := st.chans.set f ch' }
          else .error .valueError

/-- Models `TableCursor.delete_record` (`_cursor.py` lines 966-1012):
unsaved record raises; otherwise fetch and decode the record, remove every
index reference, then delete the primary message (and the caller resets
`__disco_id__` to `-1`). -/
def delete_record (hsh : V → Int) (st : TableState V) (discoId : Int) :
    Except DbError (TableState V) :=
  if discoId = -1 then .error .corruption
  else
    match st.main.find? (fun p => (p.1 : Int) == discoId) with
    | none => .error .notFound
    | some (id, oldVals) => do
      let st' ← delete_fields hsh id (oldVals.enum) st
      .ok { st' with main := st'.main.filter (fun p => p.1 ≠ id) }

/-! ### The schema binding's `save` (C10) -/

/-- The class-level state `Table.save` checks through `_ensure_db`
(`table.py` lines 48-63): an attached database, an open connection, and a
cursor set by `build_tables`. -/
structure BindingState where
  has_database : Bool
  db_open : Bool
  has_cursor : Bool
  deriving DecidableEq

/-- Result of `Table.save`.  `rejected err state disco_id` models an
exception raised before `free_fly(self.__disco_cursor__.add_record(self))`
is ever called: no channel write was issued, and the table state and the
instance's `__disco_id__` are recorded verbatim as they were left.
`launched run` hands the started `add_record` task over. -/
inductive SaveResult (V : Type) where
  | rejected (err : DbError) (state : TableState V) (disco_id : Int)
  | launched (run : Except DbError (Nat × TableState V))

/-- Models `Table.save` (`table.py` lines 65-98): `_ensure_db` raises
`DatabaseTableError` without a database or cursor and `NotConnectedError`
on a closed database; then an instance whose `__disco_id__` is not `-1`
raises `DatabaseStorageError` — all before the `add_record` task is
created.  Otherwise `add_record` runs and its done-callback stores the new
message id. -/
def table_save (hsh : V → Int) (b : BindingState) (discoId : Int)
    (st : TableState V) (vals : List V) : SaveResult V :=
  if ¬ b.has_database then .rejected .tableError st discoId
  else if ¬ b.db_open then .rejected .notConnected st discoId
  else if ¬ b.has_cursor then .rejected .tableError st discoId
  else if discoId ≠ -1 then .rejected .storage st discoId
  else .launched (add_record hsh st vals)

/-! ### The record codec (C7)

Models `_Record` (`_cursor.py` lines 27-41).  `from_data` stores
`urlsafe_b64encode(data.model_dump_json().encode("utf-8"))` in the
`content` field and the message body is the JSON dump of the `_Record`
itself, i.e. `{"content":"<base64>"}`.  `decode_content` reverses the
chain: `model_validate_json(urlsafe_b64decode(content))`.

The pydantic JSON serializer is an external collaborator (spec §6 "Record
wire format": schema instance → field-name/typed-value map → serialized
string, "Must round-trip exactly"); it is modelled here as a concrete JSON
printer/parser over records with integer and string fields, together with
full models of UTF-8 (`str.encode("utf-8")`) and url-safe base64. -/

/-- A JSON-representable schema field value: integer or string. -/
inductive JVal where
  | jint (n : Int)
  | jstr (s : List Char)
  deriving DecidableEq

/-- Lower-case hex digit for a value below 16. -/
def hexDigit (n : Nat) : Char :=
  if n < 10 then Char.ofNat (48 + n) else Char.ofNat (97 + (n - 10))

/-- JSON escaping of one character: quote and backslash get a backslash
escape, control characters a `\u00XX` escape, everything else passes
through (serde-style, non-ASCII unescaped). -/
def escapeChar (c : Char) : List Char :=
  if c = '"' then ['\\', '"']
  else if c = '\\' then ['\\', '\\']
  else if c.toNat < 32 then
    ['\\', 'u', '0', '0', hexDigit (c.toNat / 16), hexDigit (c.toNat % 16)]
  else [c]

/-- Print a JSON string literal. -/
def printJStr (s : List Char) : List Char :=
  '"' :: (s.map escapeChar).flatten ++ ['"']

/-- Print a natural number in decimal. -/
def printNat (n : Nat) : List Char :=
  if n = 0 then ['0']
  else (Nat.digits 10 n).reverse.map (fun d => Char.ofNat (48 + d))

/-- Print an integer in decimal. -/
def printInt : Int → List Char
  | .ofNat n => printNat n
  | .negSucc n => '-' :: printNat (n + 1)

/-- Print a JSON value. -/
def printJVal : JVal → List Char
  | .jint n => printInt n
  | .jstr s => printJStr s

/-- Print one `"key":value` member. -/
def printPair (p : List Char × JVal) : List Char :=
  printJStr p.1 ++ ':' :: printJVal p.2

/-- Print a JSON object, fields in schema order, no whitespace (as
pydantic's `model_dump_json` emits it). -/
def printObj (fields : List (List Char × JVal)) : List Char :=
  '{' :: (match fields with
    | [] => []
    | f :: rest => printPair f ++ (rest.map (fun g => ',' :: printPair g)).flatten) ++ ['}']

/-- Decode a lower-case hex digit. -/
def unhexDigit (c : Char) : Option Nat :=
  if 48 ≤ c.toNat ∧ c.toNat ≤ 57 then some (c.toNat - 48)
  else if 97 ≤ c.toNat ∧ c.toNat ≤ 102 then some (c.toNat - 87)
  else none

/-- Parse the body of a JSON string literal (after the opening quote) up to
and including the closing quote; returns the decoded characters and the
rest of the input.  The fuel argument (callers pass the input length, which
always suffices since every step consumes at least one character) makes the
recursion structural. -/
def parseJStrBody : Nat → List Char → Option (List Char × List Char)
  | 0, _ => none
  | _ + 1, [] => none
  | fuel + 1, c :: rest =>
    if c = '"' then some ([], rest)
    else if c = '\\' then
      match rest with
      | [] => none
      | e :: rest2 =>
        if e = '"' ∨ e = '\\' then
          match parseJStrBody fuel rest2 with
          | some (s, r) => some (e :: s, r)
          | none => none
        else if e = 'u' then
          match rest2 with
          | h1 :: h2 :: h3 :: h4 :: rest3 =>
            match unhexDigit h1, unhexDigit h2, unhexDigit h3, unhexDigit h4 with
            | some d1, some d2, some d3, some d4 =>
              match parseJStrBody fuel rest3 with
              | some (s, r) =>
                some (Char.ofNat (((d1 * 16 + d2) * 16 + d3) * 16 + d4) :: s, r)
              | none => none
            | _, _, _, _ => none
          | _ => none
        else none
    else
      match parseJStrBody fuel rest with
      | some (s, r) => some (c :: s, r)
      | none => none

/-- Is this an ASCII decimal digit? -/
def isDigitChar (c : Char) : Bool :=
  48 ≤ c.toNat && c.toNat ≤ 57

/-- Greedily take decimal digits (most significant first). -/
def parseDigits : List Char → List Nat × List Char
  | [] => ([], [])
  | c :: rest =>
    if isDigitChar c then
      let (ds, r) := parseDigits rest
      ((c.toNat - 48) :: ds, r)
    else ([], c :: rest)

/-- Parse a natural number (at least one digit). -/
def parseNat (l : List Char) : Option (Nat × List Char) :=
  match parseDigits l with
  | ([], _) => none
  | (ds, r) => some (Nat.ofDigits 10 ds.reverse, r)

/-- Parse an optionally-signed integer. -/
def parseInt : List Char → Option (Int × List Char)
  | [] => none
  | c :: rest =>
    if c = '-' then
      match parseNat rest with
      | some (n, r) => some (-(n : Int), r)
      | none => none
    else
      match parseNat (c :: rest) with
      | some (n, r) => some ((n : Int), r)
      | none => none

/-- Parse a JSON value (string or integer). -/
def parseJVal : List Char → Option (JVal × List Char)
  | [] => none
  | c :: rest =>
    if c = '"' then
      match parseJStrBody rest.length rest with
      | some (s, r) => some (.jstr s, r)
      | none => none
    else
      match parseInt (c :: rest) with
      | some (n, r) => some (.jint n, r)
      | none => none

/-- Parse one `"key":value` member. -/
def parsePair : List Char → Option ((List Char × JVal) × List Char)
  | [] => none
  | c :: rest =>
    if c = '"' then
      match parseJStrBody rest.length rest with
      | some (k, c2 :: r2) =>
        if c2 = ':' then
          match parseJVal r2 with
          | some (v, r3) => some ((k, v), r3)
          | none => none
        else none
      | _ => none
    else none

/-- Parse a comma-separated member list followed by the closing brace.  The
fuel bounds the number of members; the input length is always enough. -/
def parseFieldsAux : Nat → List Char → Option (List (List Char × JVal) × List Char)
  | 0, _ => none
  | fuel + 1, l =>
    match parsePair l with
    | none => none
    | some (p, r) =>
      match r with
      | [] => none
      | c :: r2 =>
        if c = ',' then
          match parseFieldsAux fuel r2 with
          | some (ps, r3) => some (p :: ps, r3)
          | none => none
        else if c = '}' then some ([p], r2)
        else none

/-- Parse a JSON object. -/
def parseObj : List Char → Option (List (List Char × JVal) × List Char)
  | [] => none
  | c :: rest =>
    if c = '{' then
      match rest with
      | [] => none
      | c2 :: rest2 =>
        if c2 = '}' then some ([], rest2)
        else parseFieldsAux rest.length rest
    else none

/-- Parse a complete JSON object document (no trailing input), as
pydantic's `model_validate_json` requires. -/
def parseObjFull (l : List Char) : Option (List (List Char × JVal)) :=
  match parseObj l with
  | some (fields, []) => some fields
  | _ => none

/-- UTF-8 encoding of one unicode scalar value. -/
def utf8EncodeChar (c : Char) : List Nat :=
  if c.toNat < 128 then [c.toNat]
  else if c.toNat < 2048 then [192 + c.toNat / 64, 128 + c.toNat % 64]
  else if c.toNat < 65536 then
    [224 + c.toNat / 4096, 128 + c.toNat / 64 % 64, 128 + c.toNat % 64]
  else
    [240 + c.toNat / 262144, 128 + c.toNat / 4096 % 64, 128 + c.toNat / 64 % 64,
      128 + c.toNat % 64]

/-- Models `str.encode("utf-8")`. -/
def utf8Encode (s : List Char) : List Nat :=
  (s.map utf8EncodeChar).flatten

/-- Models decoding UTF-8 bytes back to characters (`bytes.decode`).  The
fuel argument (callers pass the byte count, which always suffices since
every step consumes at least one byte) makes the recursion structural. -/
def utf8Decode : Nat → List Nat → Option (List Char)
  | _, [] => some []
  | 0, _ :: _ => none
  | fuel + 1, b :: rest =>
    if b < 128 then
      match utf8Decode fuel rest with
      | some cs => some (Char.ofNat b :: cs)
      | none => none
    else if b < 192 then none
    else if b < 224 then
      match rest with
      | b2 :: rest2 =>
        if 128 ≤ b2 ∧ b2 < 192 then
          match utf8Decode fuel rest2 with
          | some cs => some (Char.ofNat ((b - 192) * 64 + (b2 - 128)) :: cs)
          | none => none
        else none
      | _ => none
    else if b < 240 then
      match rest with
      | b2 :: b3 :: rest2 =>
        if (128 ≤ b2 ∧ b2 < 192) ∧ (128 ≤ b3 ∧ b3 < 192) then
          match utf8Decode fuel rest2 with
          | some cs =>
            some (Char.ofNat (((b - 224) * 64 + (b2 - 128)) * 64 + (b3 - 128)) :: cs)
          | none => none
        else none
      | _ => none
    else if b < 248 then
      match rest with
      | b2 :: b3 :: b4 :: rest2 =>
        if (128 ≤ b2 ∧ b2 < 192) ∧ (128 ≤ b3 ∧ b3 < 192) ∧ (128 ≤ b4 ∧ b4 < 192) then
          match utf8Decode fuel rest2 with
          | some cs =>
            some (Char.ofNat ((((b - 240) * 64 + (b2 - 128)) * 64 + (b3 - 128)) * 64
              + (b4 - 128)) :: cs)
          | none => none
        else none
      | _ => none
    else none

/-- One character of the url-safe base64 alphabet (`urlsafe_b64encode`). -/
def b64char (n : Nat) : Char :=
  if n < 26 then Char.ofNat (65 + n)
  else if n < 52 then Char.ofNat (97 + (n - 26))
  else if n < 62 then Char.ofNat (48 + (n - 52))
  else if n = 62 then '-'
  else '_'

/-- Decode one url-safe base64 alphabet character. -/
def b64charDec (c : Char) : Option Nat :=
  if 65 ≤ c.toNat ∧ c.toNat ≤ 90 then some (c.toNat - 65)
  else if 97 ≤ c.toNat ∧ c.toNat ≤ 122 then some (c.toNat - 71)
  else if 48 ≤ c.toNat ∧ c.toNat ≤ 57 then some (c.toNat + 4)
  else if c = '-' then some 62
  else if c = '_' then some 63
  else none

/-- Models `base64.urlsafe_b64encode` on a byte list (each below 256). -/
def b64encode : List Nat → List Char
  | [] => []
  | [b1] => [b64char (b1 / 4), b64char (b1 % 4 * 16), '=', '=']
  | [b1, b2] =>
    [b64char (b1 / 4), b64char (b1 % 4 * 16 + b2 / 16), b64char (b2 % 16 * 4), '=']
  | b1 :: b2 :: b3 :: rest =>
    b64char (b1 / 4) :: b64char (b1 % 4 * 16 + b2 / 16) ::
      b64char (b2 % 16 * 4 + b3 / 64) :: b64char (b3 % 64) :: b64encode rest

/-- Models `base64.urlsafe_b64decode`: four characters at a time, padding
only at the end. -/
def b64decode : List Char → Option (List Nat)
  | c1 :: c2 :: c3 :: c4 :: rest =>
    (match b64charDec c1, b64charDec c2 with
    | some s1, some s2 =>
      if c3 = '=' then
        if c4 = '=' ∧ rest = [] then some [s1 * 4 + s2 / 16] else none
      else
        match b64charDec c3 with
        | some s3 =>
          if c4 = '=' then
            if rest = [] then some [s1 * 4 + s2 / 16, s2 % 16 * 16 + s3 / 4] else none
          else
            match b64charDec c4, b64decode rest with
            | some s4, some bs =>
              some ((s1 * 4 + s2 / 16) :: (s2 % 16 * 16 + s3 / 4) :: (s3 % 4 * 64 + s4) :: bs)
            | _, _ => none
        | none => none
    | _, _ => none)
  | [] => some []
  | _ => none

/-- Models `_Record.from_data` followed by `model_dump_json` on the
`_Record`: the message body is `{"content":"<urlsafe-b64 of utf8 of the
record JSON>"}`. -/
def record_encode (fields : List (List Char × JVal)) : List Char :=
  printObj [(String.data "content",
    .jstr (b64encode (utf8Encode (printObj fields))))]

/-- Models `_Record.model_validate_json(msg.content).decode_content(...)`:
parse the `_Record` JSON, base64-decode its single `content` field,
UTF-8-decode the bytes, and validate the inner record JSON. -/
def record_decode (msg : List Char) : Option (List (List Char × JVal)) :=
  match parseObjFull msg with
  | some [(k, .jstr b64)] =>
    if k = String.data "content" then
      match b64decode b64 with
      | some bytes =>
        match utf8Decode bytes.length bytes with
        | some json => parseObjFull json
        | none => none
      | none => none
    else none
  | _ => none

/-! ### Concrete tables used by the counterexamples and witnesses -/

/-- A freshly created one-field table of capacity 4 (`initial_size = 4`):
empty primary channel, one index channel of four tombstones, counters 0/4
persisted, next message id 100. -/
def exampleTable1 : TableState Int :=
  ⟨[], [[none, none, none, none]], 0, 4, 0, 4, 100⟩

/-- A freshly created two-field table of capacity 4 (e.g. the spec's
`{username, password}` schema with integer-valued fields, which
`_hash` maps to themselves). -/
def exampleTable2 : TableState Int :=
  ⟨[], [[none, none, none, none], [none, none, none, none]], 0, 4, 0, 4, 100⟩

/-- A one-field table of capacity 4 holding the single record `[1]` at
location 100: its index entry sits in its home bucket 1, the counters are
1/4 in memory and persisted, next message id 101. -/
def exampleTable3 : TableState Int :=
  ⟨[(100, [1])], [[none, some ⟨1, [100]⟩, none, none]], 1, 4, 1, 4, 101⟩

/-! ### Helper predicates used by the theorems -/

/-- The input does not begin with a decimal digit (so a greedy number parse
stops exactly here). -/
def head_not_digit : List Char → Prop
  | [] => True
  | c :: _ => isDigitChar c = false

/-- Field `f`'s home bucket for value `v` is compatible with inserting
location `id` without a collision: it is either a tombstone or an entry
already keyed by `hsh v` that does not yet hold `id`; the channel has the
right capacity and every id already there is fetchable from the primary
channel. -/
def HomeFree [DecidableEq V] (hsh : V → Int) (st : TableState V) (f : Nat) (v : V)
    (id : Nat) : Prop :=
  ∃ ch, st.chans[f]? = some ch ∧ ch.length = st.max_records ∧
    (ch[to_index (hsh v) st.max_records]? = some none ∨
     ∃ ids, ch[to_index (hsh v) st.max_records]? = some (some ⟨hsh v, ids⟩) ∧
       id ∉ ids ∧ ∀ x ∈ ids, (st.main.lookup x).isSome)

/-- Field `f`'s home bucket for value `v` holds an entry keyed by `hsh v`
whose `record_ids` contain location `id` exactly once, all of them
fetchable from the primary channel. -/
def HomeHas [DecidableEq V] (hsh : V → Int) (st : TableState V) (f : Nat) (v : V)
    (id : Nat) : Prop :=
  ∃ ch ids, st.chans[f]? = some ch ∧ ch.length = st.max_records ∧
    ch[to_index (hsh v) st.max_records]? = some (some ⟨hsh v, ids⟩) ∧
    ids.count id = 1 ∧ ∀ x ∈ ids, (st.main.lookup x).isSome

/-- Every triple of the update zip has an unchanged value. -/
def AllEq (L : List (Nat × V × V)) : Prop := ∀ p ∈ L, p.2.1 = p.2.2

end Discobase

namespace Discobase

/-! ## Theorems

One theorem (plus witness or counterexample) per claim of the frozen
claims list, preceded by the helper lemmas they share. -/

/-! ### C6 — `to_bucket_index` -/

/-- Claim C6 as written is false on the code: `_to_index` masks the hash
with `0x7FFFFFFF`, a 31-bit mask, not a 63-bit one.  At hash `2^31`
(positive) and capacity `2^31 + 1` the code returns bucket `0`, while
masking to 63 bits as the spec says would return bucket `2^31`. -/
theorem C6_counterexample :
    to_index (2 ^ 31) (2 ^ 31 + 1) = 0 ∧
    to_bucket_index_spec63 (2 ^ 31) (2 ^ 31 + 1) = 2 ^ 31 ∧
    to_index (2 ^ 31) (2 ^ 31 + 1) ≠ to_bucket_index_spec63 (2 ^ 31) (2 ^ 31 + 1) := by
  refine ⟨?_, ?_, ?_⟩ <;> decide

/-- Claim C6, amended: `to_index` is a pure function of `(hash, capacity)`
that masks the hash to a 31-bit (not 63-bit) non-negative integer
(`hash & 0x7FFFFFFF`) and reduces it modulo the capacity, so for every
integer hash (positive or negative) and every capacity > 0 the result lies
in `[0, capacity)`. -/
theorem C6_to_index_in_range (value : Int) (capacity : Nat) (h : 0 < capacity) :
    to_index value capacity < capacity ∧ (value.emod (2 ^ 31)).toNat < 2 ^ 31 := by
  constructor
  · exact Nat.mod_lt _ h
  · have h1 : value.emod (2 ^ 31) < 2 ^ 31 := Int.emod_lt_of_pos value (by norm_num)
    omega

/-- Witness for `C6_to_index_in_range` at hash `-5`, capacity `4`. -/
theorem C6_witness :
    0 < 4 ∧ (to_index (-5) 4 < 4 ∧ ((-5 : Int).emod (2 ^ 31)).toNat < 2 ^ 31) :=
  ⟨by decide, C6_to_index_in_range (-5) 4 (by decide)⟩

/-! ### C5 — `_hash` -/

/-- Claim C5 is broken by the code for every `dict` value: the branch
builds the `_HashTransport` dict and then calls Python's `hash()` on it —
a plain `dict` is unhashable, so the call raises `TypeError` instead of
producing an order-insensitive hash, and instead of the `Unhashable`
storage error reserved for values with no hash rule.  Shown at the
concrete input `{1: 2}`, for arbitrary string/tuple hash parameters (the
branch never consults them on this input). -/
theorem C5_dict_hash_raises (sha1 : String → Int) (tupleHash : List Int → Int) :
    pyHash sha1 tupleHash (.pdict (.cons (.pint 1) (.pint 2) .nil)) = .error .typeError ∧
    pyHash sha1 tupleHash (.pdict (.cons (.pint 1) (.pint 2) .nil)) ≠ .error .storage := by
  refine ⟨rfl, ?_⟩
  intro h
  have h2 : (Except.error DbError.typeError : Except DbError Int) = .error .storage := h
  simp at h2

/-! ### C3 — counter invariant and synchronous resize -/

/-- Claim C3: starting from a state satisfying the invariant
`current_records ≤ max_records` (with a positive capacity — a capacity-0
table raises `ZeroDivisionError` in `_to_index` before any counter is
touched), the increment performed by an insert restores the invariant
before returning: when the new count strictly exceeds `max_records` the
synchronous resize exactly doubles `max_records`, and otherwise the
capacity is untouched; the decrements of update/delete preserve the
invariant as well. -/
theorem C3_counter_invariant (current max_records : Int)
    (hinv : current ≤ max_records) (hpos : 1 ≤ max_records) :
    (inc_records_meta current max_records).1 ≤ (inc_records_meta current max_records).2 ∧
    (current + 1 > max_records → (inc_records_meta current max_records).2 = max_records * 2) ∧
    (¬ current + 1 > max_records → (inc_records_meta current max_records).2 = max_records) ∧
    dec_records_meta current ≤ max_records := by
  simp only [inc_records_meta, dec_records_meta]
  split <;> refine ⟨by omega, fun h => by omega, fun h => by omega, by omega⟩

/-- Witness for `C3_counter_invariant` at the resize boundary
`current_records = max_records = 4` (the 5th occupant of a size-4 table). -/
theorem C3_witness :
    (4 : Int) ≤ 4 ∧ (1 : Int) ≤ 4 ∧
    ((inc_records_meta 4 4).1 ≤ (inc_records_meta 4 4).2 ∧
     ((4 : Int) + 1 > 4 → (inc_records_meta 4 4).2 = 4 * 2) ∧
     (¬ (4 : Int) + 1 > 4 → (inc_records_meta 4 4).2 = 4) ∧
     dec_records_meta 4 ≤ 4) :=
  ⟨by decide, by decide, C3_counter_invariant 4 4 (by decide) (by decide)⟩

/-! ### C1 — `find_records` does not intersect -/

/-- Claim C1 is false on the code: `find_records` collects the per-field
id-sets but never intersects them — its final double loop appends every id
of every set.  Concretely (the repository's own `test_find_records`
scenario, with integer-valued fields): insert `[1, 2]` (location 100) and
`[3, 2]` (location 101), then query `{field0: 1, field1: 2}`.  The
per-field sets are `{100}` and `{100, 101}`, whose intersection is
`{100}`; the code returns the concatenation `[100, 100, 101]`, which
contains location 101 (a record that fails the `field0 = 1` filter) and
location 100 twice. -/
theorem C1_union_not_intersection :
    (do
      let (_, s1) ← add_record (fun v => v) exampleTable2 [1, 2]
      let (_, s2) ← add_record (fun v => v) s1 [3, 2]
      let sets ← find_sets (fun v => v) s2 [(0, 1), (1, 2)]
      let l ← find_records (fun v => v) s2 [(0, 1), (1, 2)]
      pure (sets, l) : Except DbError (List (List Nat) × List Nat)) =
      .ok ([[100], [100, 101]], [100, 100, 101]) ∧
    ([100] : List Nat).inter [100, 101] = [100] ∧
    101 ∈ ([100, 100, 101] : List Nat) ∧
    101 ∉ ([100] : List Nat) ∧
    List.count 100 ([100, 100, 101] : List Nat) = 2 := by
  refine ⟨?_, ?_, ?_, ?_, ?_⟩ <;> decide

/-! ### C2 — insert-then-find, the collision branch loses records -/

/-- Claim C2 as written is false on the code.  `_write_index_record`'s
collision branch probes for a tombstone without checking for an existing
entry with the same key further along the probe chain, so the same key can
end up split over two entries, and lookup (which stops at the first
key match) misses the later one.  Concrete run in a one-field table of
capacity 4 with integer values (hash = identity): insert `8` (bucket 0),
insert `4` (collides with 8 at bucket 0, probed to bucket 1), insert `4`
again (location 102; collides at bucket 0, probed PAST the key-4 entry in
bucket 1 to the tombstone at bucket 2).  The immediately following
`find_records {field0: 4}` stops at bucket 1 and returns `[101]` — the
just-inserted location 102 is not in the result at all. -/
theorem C2_counterexample :
    (do
      let (_, s1) ← add_record (fun v => v) exampleTable1 [8]
      let (_, s2) ← add_record (fun v => v) s1 [4]
      let (i3, s3) ← add_record (fun v => v) s2 [4]
      let l ← find_records (fun v => v) s3 [(0, 4)]
      pure (i3, l) : Except DbError (Nat × List Nat)) = .ok (102, [101]) ∧
    102 ∉ ([101] : List Nat) := by
  refine ⟨?_, ?_⟩ <;> decide

/-! ### C4 — update reconciliation resolves the wrong bucket -/

/-- Claim C4 as written is false on the code.  `update_record` resolves the
old value's entry by jumping straight to the old hash's home bucket — with
no collision search and no key check — so when the old entry had been
displaced by a collision, the wrong bucket is reconciled.  Concrete run in
a one-field table of capacity 4 with integer values: insert `8` (location
100, bucket 0), insert `4` (location 101; collides, probed to bucket 1);
update record 101 from `4` to `5`.  The new value `5` is written (bucket 2,
after colliding with the key-4 entry at its home bucket 1), and then the
code tombstones bucket 0 — the home bucket of old value 4, which actually
holds the UNRELATED record 100 — while the old value's real bucket 1 keeps
`{key: 4, record_ids: [101]}` untouched: the record's location is neither
removed nor its bucket tombstoned, and record 100 (whose value 8 never
changed) is no longer findable at all. -/
theorem C4_counterexample :
    (do
      let (_, s1) ← add_record (fun v => v) exampleTable1 [8]
      let (_, s2) ← add_record (fun v => v) s1 [4]
      let s3 ← update_record (fun v => v) s2 101 [5]
      let l8 ← find_records (fun v => v) s3 [(0, 8)]
      pure (s2.chans, s3.chans, l8) :
        Except DbError (List (List Bucket) × List (List Bucket) × List Nat)) =
      .ok ([[some ⟨8, [100]⟩, some ⟨4, [101]⟩, none, none]],
           [[none, some ⟨4, [101]⟩, some ⟨5, [101]⟩, none]], []) ∧
    (some (⟨4, [101]⟩ : IndexEntry) ≠ none ∧ 100 ∉ ([] : List Nat)) := by
  refine ⟨?_, ?_, ?_⟩ <;> decide

/-! ### C8 — decrements are not persisted -/

/-- Claim C8 is false on the code: the `current_records` decrements in
`update_record` and `delete_record` are not followed by a metadata persist
anywhere in the operation.  Concrete runs in a one-field table of capacity
4: after inserting `8` (location 100, counters 1/1 in memory and
persisted), updating record 100 to `9` leaves `current_records = 1` in
memory but `2` persisted (the insert-path write of the new value persisted
the incremented counter, the decrement after nullifying the old bucket did
not); deleting record 100 instead leaves `0` in memory but `1`
persisted. -/
theorem C8_counterexample :
    (do
      let (_, s1) ← add_record (fun v => v) exampleTable1 [8]
      let s2 ← update_record (fun v => v) s1 100 [9]
      pure (s2.current_records, s2.persisted_current) :
        Except DbError (Int × Int)) = .ok (1, 2) ∧
    (do
      let (_, s1) ← add_record (fun v => v) exampleTable1 [8]
      let s2 ← delete_record (fun v => v) s1 100
      pure (s2.current_records, s2.persisted_current) :
        Except DbError (Int × Int)) = .ok (0, 1) ∧
    (1 : Int) ≠ 2 ∧ (0 : Int) ≠ 1 := by
  refine ⟨?_, ?_, ?_, ?_⟩ <;> decide

/-! ### C9 — collision search -/

/-- Stepping the offset (`0` when `offset + 1 >= max_records`, else
`offset + 1`) is addition by one modulo the table size, for offsets inside
the table. -/
theorem probe_step_eq_mod {m x : Nat} (hx : x < m) :
    (if x + 1 ≥ m then 0 else x + 1) = (x + 1) % m := by
  split
  · have h : x + 1 = m := by omega
    rw [h, Nat.mod_self]
  · rw [Nat.mod_eq_of_lt (by omega)]

/-- Shifting inside a residue class returns to the start only after a full
multiple of the table size. -/
theorem shift_mod_ne {m i c : Nat} (hi : i < m) (hc0 : 0 < c) (hcm : c < m) :
    (i + c) % m ≠ i := by
  intro h
  rcases Nat.lt_or_ge (i + c) m with hlt | hge
  · rw [Nat.mod_eq_of_lt hlt] at h
    omega
  · have h2 : (i + c) % m = i + c - m := by
      rw [Nat.mod_eq_sub_mod hge, Nat.mod_eq_of_lt (by omega)]
    omega

/-- The probe loop, run with the fuel that remains after `k` steps, scans
exactly the remaining probe offsets in order. -/
theorem find_collision_go_spec (look : Nat → Option α) (p : α → Bool) {m : Nat}
    (i : Nat) (hi : i < m) :
    ∀ fuel k, k + fuel = m → k < m →
      find_collision_go look p m i fuel ((i + k) % m) =
      first_match look p
        ((List.range (m - 1 - k)).map (fun j => (i + k + 1 + j) % m)) := by
  intro fuel
  induction fuel with
  | zero => intro k hk hklt; omega
  | succ n ih =>
    intro k hk hklt
    have hm : 0 < m := by omega
    have hoff : (i + k) % m < m := Nat.mod_lt _ hm
    have hstep : (if (i + k) % m + 1 ≥ m then 0 else (i + k) % m + 1)
        = (i + (k + 1)) % m := by
      rw [probe_step_eq_mod hoff, Nat.mod_add_mod, Nat.add_assoc]
    simp only [find_collision_go]
    rw [hstep]
    rcases Nat.eq_or_lt_of_le (by omega : k + 1 ≤ m) with heq | hlt
    · have hwrap : (i + (k + 1)) % m = i := by
        rw [heq, Nat.add_mod_right, Nat.mod_eq_of_lt hi]
      rw [if_pos hwrap]
      have hz : m - 1 - k = 0 := by omega
      rw [hz]
      rfl
    · rw [if_neg (shift_mod_ne hi (by omega) hlt)]
      have ht : m - 1 - k = (m - 1 - (k + 1)) + 1 := by omega
      rw [ht, List.range_succ_eq_map, List.map_cons, List.map_map]
      have hf0 : (i + k + 1 + 0) % m = (i + (k + 1)) % m := by
        rw [Nat.add_zero, Nat.add_assoc]
      simp only [first_match, hf0]
      cases hl : look ((i + (k + 1)) % m) with
      | none => rfl
      | some a =>
        by_cases hp : p a
        · simp [hp]
        · simp only [hp, if_false, Bool.false_eq_true]
          rw [ih (k + 1) (by omega) hlt]
          refine congrArg (first_match look p) (List.map_congr_left ?_)
          intro j _
          simp only [Function.comp_apply, Nat.succ_eq_add_one]
          congr 1
          omega

/-- The probe order visits pairwise distinct buckets. -/
theorem probe_seq_nodup {m i : Nat} (hi : i < m) : (probe_seq m i).Nodup := by
  unfold probe_seq
  refine List.Nodup.map_on ?_ (List.nodup_range (m - 1))
  intro a ha b hb hab
  rw [List.mem_range] at ha hb
  have hmod : a ≡ b [MOD m] := Nat.ModEq.add_left_cancel' (i + 1) hab
  have : a % m = b % m := hmod
  rwa [Nat.mod_eq_of_lt (by omega), Nat.mod_eq_of_lt (by omega)] at this

/-- The probe order never revisits the starting bucket. -/
theorem not_mem_probe_seq {m i : Nat} (hi : i < m) : i ∉ probe_seq m i := by
  unfold probe_seq
  intro h
  rcases List.mem_map.mp h with ⟨k, hk, hfk⟩
  rw [List.mem_range] at hk
  have h2 : (i + (1 + k)) % m = i := by rw [← Nat.add_assoc]; exact hfk
  exact shift_mod_ne hi (by omega) (by omega) h2

/-- Scanning a list of probes whose lookups all succeed either returns the
first satisfying probe or reports corruption with no probe satisfying. -/
theorem first_match_cases (look : Nat → Option α) (p : α → Bool) :
    ∀ l : List Nat, (∀ o ∈ l, (look o).isSome) →
      (∃ o a, first_match look p l = .found o a ∧ look o = some a ∧ p a = true ∧ o ∈ l) ∨
      (first_match look p l = .corrupt ∧ ∀ o ∈ l, ∀ a, look o = some a → p a = false) := by
  intro l
  induction l with
  | nil => intro _; exact .inr ⟨rfl, by simp⟩
  | cons o rest ih =>
    intro hl
    have ho : (look o).isSome := hl o (by simp)
    cases ho' : look o with
    | none => rw [ho'] at ho; simp at ho
    | some a =>
      by_cases hp : p a
      · exact .inl ⟨o, a, by simp [first_match, ho', hp], ho', hp, by simp⟩
      · have hrest : ∀ o' ∈ rest, (look o').isSome := by
          intro o' ho''
          exact hl o' (by simp [ho''])
        rcases ih hrest with ⟨o', a', h1, h2, h3, h4⟩ | ⟨h1, h2⟩
        · refine .inl ⟨o', a', ?_, h2, h3, by simp [h4]⟩
          simp [first_match, ho', hp, h1]
        · refine .inr ⟨by simp [first_match, ho', hp, h1], ?_⟩
          intro o' ho'' a'' hla
          rcases List.mem_cons.mp ho'' with rfl | hmem
          · rw [ho'] at hla
            cases hla
            simpa using hp
          · exact h2 o' hmem a'' hla

/-- Claim C9: for every table size ≥ 1 and starting index inside the table
(and lookups succeeding inside the table, as `_lookup_message` does for a
correctly sized channel), the collision search probes linearly forward
wrapping at `max_records`, visiting each bucket other than the starting one
at most once (the probe order is duplicate-free, excludes the start, and
has length `max_records - 1`), and always terminates: it returns the first
probed message satisfying the predicate, or raises the corruption error
after exhausting the full wrap-around with no probe satisfying. -/
theorem C9_collision_search (look : Nat → Option α) (p : α → Bool) (m i : Nat)
    (hm : 0 < m) (hi : i < m) (hlook : ∀ j, j < m → (look j).isSome) :
    find_collision_message look p m i = first_match look p (probe_seq m i) ∧
    (probe_seq m i).Nodup ∧
    i ∉ probe_seq m i ∧
    (probe_seq m i).length = m - 1 ∧
    ((∃ o a, find_collision_message look p m i = .found o a ∧
        look o = some a ∧ p a = true ∧ o ∈ probe_seq m i) ∨
     (find_collision_message look p m i = .corrupt ∧
        ∀ o ∈ probe_seq m i, ∀ a, look o = some a → p a = false)) := by
  have heq : find_collision_message look p m i = first_match look p (probe_seq m i) := by
    unfold find_collision_message probe_seq
    have h0 : (i + 0) % m = i := by rw [Nat.add_zero, Nat.mod_eq_of_lt hi]
    have hspec := find_collision_go_spec look p i hi m 0 (by omega) hm
    rw [h0] at hspec
    rw [hspec]
    simp
  have hmem : ∀ o ∈ probe_seq m i, (look o).isSome := by
    intro o ho
    rcases List.mem_map.mp ho with ⟨k, _, hfk⟩
    exact hlook o (hfk ▸ Nat.mod_lt _ hm)
  refine ⟨heq, probe_seq_nodup hi, not_mem_probe_seq hi, by simp [probe_seq], ?_⟩
  rw [heq]
  exact first_match_cases look p (probe_seq m i) hmem

/-- Witness for `C9_collision_search`: capacity 4, start 0, every bucket
readable, searching for content 2; the loop finds it at offset 2. -/
theorem C9_witness :
    (find_collision_message (fun j => some j) (fun a => a == 2) 4 0 =
      first_match (fun j => some j) (fun a => a == 2) (probe_seq 4 0) ∧
     find_collision_message (fun j => some j) (fun a => a == 2) 4 0 =
      .found 2 2) :=
  ⟨(C9_collision_search (fun j => some j) (fun a => a == 2) 4 0
      (by decide) (by decide) (by decide)).1, by decide⟩

/-! ### C10 — `save` on an already-saved record -/

/-- Claim C10: with the binding checks passing (`_ensure_db` finds an
attached database, an open connection and a cursor), calling `save` on a
schema instance whose location is already set (`__disco_id__ ≠ -1`) is
rejected with `DatabaseStorageError` before the `add_record` task is ever
created: no channel write is issued and the table state and the instance's
location are returned verbatim unchanged. -/
theorem C10_save_already_written {V : Type} (hsh : V → Int) (b : BindingState)
    (discoId : Int) (st : TableState V) (vals : List V)
    (h1 : b.has_database = true) (h2 : b.db_open = true) (h3 : b.has_cursor = true)
    (h4 : discoId ≠ -1) :
    table_save hsh b discoId st vals = .rejected .storage st discoId := by
  unfold table_save
  simp [h1, h2, h3, h4]

/-- Witness for `C10_save_already_written`: a record saved at location 5. -/
theorem C10_witness :
    ((⟨true, true, true⟩ : BindingState).has_database = true ∧ (5 : Int) ≠ -1) ∧
    table_save (fun v : Int => v) ⟨true, true, true⟩ 5 exampleTable1 [8] =
      .rejected .storage exampleTable1 5 :=
  ⟨⟨rfl, by decide⟩,
    C10_save_already_written (fun v : Int => v) ⟨true, true, true⟩ 5 exampleTable1 [8]
      rfl rfl rfl (by decide)⟩

/-! ### C7 — codec round-trip: numbers -/

/-- Value of a printed decimal digit character. -/
theorem digit_char_toNat {d : Nat} (hd : d < 10) :
    (Char.ofNat (48 + d)).toNat = 48 + d := by
  interval_cases d <;> decide

/-- A printed decimal digit character is a digit. -/
theorem digit_char_isDigit {d : Nat} (hd : d < 10) :
    isDigitChar (Char.ofNat (48 + d)) = true := by
  interval_cases d <;> decide

/-- A printed decimal digit character is not a minus sign. -/
theorem digit_char_ne_minus {d : Nat} (hd : d < 10) : Char.ofNat (48 + d) ≠ '-' := by
  interval_cases d <;> decide

/-- A printed decimal digit character is not a quote. -/
theorem digit_char_ne_quote {d : Nat} (hd : d < 10) : Char.ofNat (48 + d) ≠ '"' := by
  interval_cases d <;> decide

/-- Greedy digit scanning consumes exactly a printed digit run when the
rest does not start with a digit. -/
theorem parseDigits_printed (ds : List Nat) (hds : ∀ d ∈ ds, d < 10)
    (rest : List Char) (hrest : head_not_digit rest) :
    parseDigits ((ds.map fun d => Char.ofNat (48 + d)) ++ rest) = (ds, rest) := by
  induction ds with
  | nil =>
    cases rest with
    | nil => rfl
    | cons c r =>
      have hc : isDigitChar c = false := hrest
      simp [parseDigits, hc]
  | cons d t ih =>
    have hd : d < 10 := hds d (by simp)
    have ht : ∀ x ∈ t, x < 10 := fun x hx => hds x (by simp [hx])
    simp only [List.map_cons, List.cons_append, parseDigits, digit_char_isDigit hd,
      if_true, List.append_eq]
    rw [ih ht, digit_char_toNat hd]
    simp

/-- Every character of `printNat n` is a decimal digit character. -/
theorem printNat_shape (n : Nat) :
    ∃ ds : List Nat, (∀ d ∈ ds, d < 10) ∧ ds ≠ [] ∧
      printNat n = ds.map (fun d => Char.ofNat (48 + d)) ∧
      Nat.ofDigits 10 ds.reverse = n := by
  by_cases h : n = 0
  · exact ⟨[0], by simp, by simp, by simp [h, printNat], by simp [Nat.ofDigits, h]⟩
  · refine ⟨(Nat.digits 10 n).reverse, ?_, ?_, ?_, ?_⟩
    · intro d hd
      exact Nat.digits_lt_base (by norm_num) (List.mem_reverse.mp hd)
    · simp [List.reverse_eq_nil_iff, Nat.digits_ne_nil_iff_ne_zero, h]
    · simp [printNat, h]
    · rw [List.reverse_reverse, Nat.ofDigits_digits]

/-- Parsing a printed natural number recovers it. -/
theorem parseNat_printed (n : Nat) (rest : List Char) (hrest : head_not_digit rest) :
    parseNat (printNat n ++ rest) = some (n, rest) := by
  obtain ⟨ds, hds, hne, hprint, hval⟩ := printNat_shape n
  rw [hprint]
  unfold parseNat
  rw [parseDigits_printed ds hds rest hrest]
  cases ds with
  | nil => exact absurd rfl hne
  | cons d t => simpa using hval

/-- Parsing a printed integer recovers it (the rest must not begin with a
digit, as after a JSON number). -/
theorem parseInt_printed (n : Int) (rest : List Char) (hrest : head_not_digit rest) :
    parseInt (printInt n ++ rest) = some (n, rest) := by
  cases n with
  | ofNat k =>
    obtain ⟨ds, hds, hne, hprint, -⟩ := printNat_shape k
    have hcons : ∃ d t, d < 10 ∧ printNat k = Char.ofNat (48 + d) :: t := by
      cases ds with
      | nil => exact absurd rfl hne
      | cons d t =>
        exact ⟨d, t.map fun x => Char.ofNat (48 + x), hds d (by simp), by simp [hprint]⟩
    obtain ⟨d, t, hd, hk⟩ := hcons
    have hpn := parseNat_printed k rest hrest
    show parseInt (printNat k ++ rest) = some (Int.ofNat k, rest)
    rw [hk, List.cons_append]
    simp only [parseInt]
    rw [if_neg (digit_char_ne_minus hd), ← List.cons_append, ← hk, hpn]
    rfl
  | negSucc k =>
    have hpn := parseNat_printed (k + 1) rest hrest
    simp only [printInt]
    rw [List.cons_append]
    simp only [parseInt]
    rw [if_pos trivial, hpn, Int.negSucc_eq]
    simp

/-! ### C7 — codec round-trip: strings -/

/-- Hex digits decode back to their value. -/
theorem unhex_hex : ∀ d < 16, unhexDigit (hexDigit d) = some d := by decide

/-- Every escaped character occupies at least one character. -/
theorem escapeChar_len (c : Char) : 1 ≤ (escapeChar c).length := by
  unfold escapeChar
  split
  · simp
  · split
    · simp
    · split <;> simp

/-- Escaping never shrinks a string. -/
theorem escape_len_ge (s : List Char) : s.length ≤ ((s.map escapeChar).flatten).length := by
  induction s with
  | nil => simp
  | cons c cs ih =>
    simp only [List.map_cons, List.flatten_cons, List.length_append, List.length_cons]
    have := escapeChar_len c
    omega

/-- Parsing an escaped, quote-terminated string body recovers the original
characters and leaves the rest untouched, for any sufficient fuel. -/
theorem parseJStrBody_printed (s : List Char) :
    ∀ (fuel : Nat) (rest : List Char), s.length < fuel →
      parseJStrBody fuel ((s.map escapeChar).flatten ++ ('"' :: rest)) = some (s, rest) := by
  induction s with
  | nil =>
    intro fuel rest hf
    cases fuel with
    | zero => omega
    | succ f => simp [parseJStrBody]
  | cons c cs ih =>
    intro fuel rest hf
    cases fuel with
    | zero => omega
    | succ f =>
      have hfs : cs.length < f := by simpa using hf
      simp only [List.map_cons, List.flatten_cons, List.append_assoc]
      by_cases h1 : c = '"'
      · subst h1
        simp only [escapeChar, if_pos rfl, List.cons_append, List.nil_append]
        simp [parseJStrBody, ih f rest hfs]
      · by_cases h2 : c = '\\'
        · subst h2
          simp only [escapeChar, if_neg h1, if_pos rfl, List.cons_append, List.nil_append]
          simp [parseJStrBody, ih f rest hfs]
        · by_cases h3 : c.toNat < 32
          · have h16 : c.toNat / 16 < 16 := by omega
            have h16b : c.toNat % 16 < 16 := by omega
            have h0 : unhexDigit '0' = some 0 := by decide
            simp only [escapeChar, if_neg h1, if_neg h2, if_pos h3, List.cons_append,
              List.nil_append]
            simp only [parseJStrBody]
            simp only [unhex_hex _ h16, unhex_hex _ h16b, h0]
            have hre : c.toNat / 16 * 16 + c.toNat % 16 = c.toNat := by omega
            simp [hre, Char.ofNat_toNat, ih f rest hfs]
          · simp only [escapeChar, if_neg h1, if_neg h2, if_neg h3, List.cons_append,
              List.nil_append]
            simp [parseJStrBody, h1, h2, ih f rest hfs]

/-! ### C7 — codec round-trip: values, members and objects -/

/-- A cons list whose head is not a digit. -/
theorem hnd_cons (c : Char) (l : List Char) (h : isDigitChar c = false) :
    head_not_digit (c :: l) := h

/-- The first character of a printed integer is never a quote. -/
theorem printInt_head (n : Int) : ∃ c t, printInt n = c :: t ∧ c ≠ '"' := by
  cases n with
  | ofNat k =>
    obtain ⟨ds, hds, hne, hprint, -⟩ := printNat_shape k
    cases ds with
    | nil => exact absurd rfl hne
    | cons d t =>
      refine ⟨Char.ofNat (48 + d), t.map fun x => Char.ofNat (48 + x), ?_,
        digit_char_ne_quote (hds d (by simp))⟩
      simp [printInt, hprint]
  | negSucc k => exact ⟨'-', printNat (k + 1), rfl, by decide⟩

/-- Parsing a printed JSON value recovers it. -/
theorem parseJVal_printed (v : JVal) (rest : List Char) (hrest : head_not_digit rest) :
    parseJVal (printJVal v ++ rest) = some (v, rest) := by
  cases v with
  | jint n =>
    obtain ⟨c, t, hct, hcq⟩ := printInt_head n
    have hpi := parseInt_printed n rest hrest
    show parseJVal (printInt n ++ rest) = some (.jint n, rest)
    rw [hct, List.cons_append]
    simp only [parseJVal, if_neg hcq]
    rw [← List.cons_append, ← hct, hpi]
  | jstr s =>
    show parseJVal (printJStr s ++ rest) = some (.jstr s, rest)
    have hshape : printJStr s ++ rest
        = '"' :: ((s.map escapeChar).flatten ++ ('"' :: rest)) := by
      simp [printJStr]
    rw [hshape]
    simp only [parseJVal, if_pos rfl]
    have hfuel : s.length < ((s.map escapeChar).flatten ++ ('"' :: rest)).length := by
      simp only [List.length_append, List.length_cons]
      have := escape_len_ge s
      omega
    rw [parseJStrBody_printed s _ rest hfuel]
    simp

/-- Parsing a printed `"key":value` member recovers it. -/
theorem parsePair_printed (p : List Char × JVal) (rest : List Char)
    (hrest : head_not_digit rest) :
    parsePair (printPair p ++ rest) = some (p, rest) := by
  obtain ⟨k, v⟩ := p
  show parsePair ((printJStr k ++ ':' :: printJVal v) ++ rest) = some ((k, v), rest)
  have hshape : (printJStr k ++ ':' :: printJVal v) ++ rest
      = '"' :: ((k.map escapeChar).flatten ++ ('"' :: (':' :: (printJVal v ++ rest)))) := by
    simp [printJStr]
  rw [hshape]
  simp only [parsePair, if_pos rfl]
  have hfuel : k.length
      < ((k.map escapeChar).flatten ++ ('"' :: (':' :: (printJVal v ++ rest)))).length := by
    simp only [List.length_append, List.length_cons]
    have := escape_len_ge k
    omega
  rw [parseJStrBody_printed k _ _ hfuel]
  simp [parseJVal_printed v rest hrest]

/-- Parsing a printed member list (with closing brace) recovers the
members, for any fuel above the member count. -/
theorem parseFieldsAux_printed (fs : List (List Char × JVal)) :
    ∀ (f : List Char × JVal) (fuel : Nat) (rest : List Char), fs.length < fuel →
      parseFieldsAux fuel
        (printPair f ++ ((fs.map (fun g => ',' :: printPair g)).flatten ++ ('}' :: rest))) =
      some (f :: fs, rest) := by
  induction fs with
  | nil =>
    intro f fuel rest hf
    cases fuel with
    | zero => omega
    | succ t =>
      simp only [List.map_nil, List.flatten_nil, List.nil_append]
      simp only [parseFieldsAux]
      rw [parsePair_printed f ('}' :: rest) (hnd_cons _ _ (by decide))]
      simp
  | cons g gs ih =>
    intro f fuel rest hf
    cases fuel with
    | zero => omega
    | succ t =>
      have hgs : gs.length < t := by
        simp only [List.length_cons] at hf
        omega
      simp only [List.map_cons, List.flatten_cons, List.append_assoc]
      simp only [parseFieldsAux]
      rw [List.cons_append]
      rw [parsePair_printed f _ (hnd_cons _ _ (by decide))]
      have hrec := ih g t rest hgs
      simp [hrec]

/-- A printed member is at least one character per member. -/
theorem flatten_pairs_len (fs : List (List Char × JVal)) :
    fs.length ≤ ((fs.map (fun g => ',' :: printPair g)).flatten).length := by
  induction fs with
  | nil => simp
  | cons g gs ih =>
    simp only [List.map_cons, List.flatten_cons, List.length_append, List.length_cons]
    omega

/-- A printed member starts with a quote. -/
theorem printPair_shape (p : List Char × JVal) : ∃ t, printPair p = '"' :: t := by
  obtain ⟨k, v⟩ := p
  exact ⟨(k.map escapeChar).flatten ++ ['"'] ++ (':' :: printJVal v),
    by simp [printPair, printJStr]⟩

/-- Parsing a printed JSON object document recovers the fields. -/
theorem parseObjFull_printObj (fields : List (List Char × JVal)) :
    parseObjFull (printObj fields) = some fields := by
  cases fields with
  | nil => rfl
  | cons f fs =>
    obtain ⟨t, ht⟩ := printPair_shape f
    have hlen : fs.length
        < (printPair f ++
            ((fs.map (fun g => ',' :: printPair g)).flatten ++ ('}' :: []))).length := by
      simp only [List.length_append, List.length_cons]
      have := flatten_pairs_len fs
      omega
    have hfields := parseFieldsAux_printed fs f _ [] hlen
    have hbody : printObj (f :: fs)
        = '{' :: (printPair f ++
            ((fs.map (fun g => ',' :: printPair g)).flatten ++ ('}' :: []))) := by
      simp [printObj]
    rw [hbody]
    unfold parseObjFull
    simp only [parseObj, if_pos rfl]
    rw [ht, List.cons_append]
    have hq : (('"' : Char) = '}') = False := by decide
    simp only [hq, if_false]
    rw [← List.cons_append, ← ht, hfields]
    simp

/-! ### C7 — codec round-trip: UTF-8 and base64 -/

/-- Every unicode scalar value is below `0x110000`. -/
theorem char_toNat_lt (c : Char) : c.toNat < 1114112 := by
  have h : c.val.isValidChar := c.valid
  simp only [UInt32.isValidChar, Nat.isValidChar] at h
  show c.val.toNat < 1114112
  omega

/-- UTF-8 encodes into bytes. -/
theorem utf8EncodeChar_bytes_lt (c : Char) : ∀ b ∈ utf8EncodeChar c, b < 256 := by
  have hc := char_toNat_lt c
  unfold utf8EncodeChar
  split_ifs with h1 h2 h3 <;> intro b hb <;> simp at hb <;> omega

/-- Models `str.encode("utf-8")` producing bytes. -/
theorem utf8Encode_bytes_lt (s : List Char) : ∀ b ∈ utf8Encode s, b < 256 := by
  intro b hb
  unfold utf8Encode at hb
  rcases List.mem_flatten.mp hb with ⟨l, hl, hbl⟩
  rcases List.mem_map.mp hl with ⟨c, -, rfl⟩
  exact utf8EncodeChar_bytes_lt c b hbl

/-- UTF-8 never encodes to fewer bytes than characters. -/
theorem utf8_len_ge (s : List Char) : s.length ≤ (utf8Encode s).length := by
  induction s with
  | nil => simp [utf8Encode]
  | cons c cs ih =>
    have h1 : 1 ≤ (utf8EncodeChar c).length := by
      unfold utf8EncodeChar
      split_ifs <;> simp
    simp only [utf8Encode, List.map_cons, List.flatten_cons, List.length_append,
      List.length_cons]
    simp only [utf8Encode] at ih
    omega

/-- Decoding the UTF-8 encoding recovers the characters, for any fuel at
least the character count. -/
theorem utf8Decode_encode (s : List Char) :
    ∀ fuel, s.length ≤ fuel → utf8Decode fuel (utf8Encode s) = some s := by
  induction s with
  | nil =>
    intro fuel _
    simp [utf8Encode, utf8Decode]
  | cons c cs ih =>
    intro fuel hf
    cases fuel with
    | zero => simp at hf
    | succ f =>
      have hcs : cs.length ≤ f := by simpa using hf
      have hc := char_toNat_lt c
      show utf8Decode (f + 1) (utf8Encode (c :: cs)) = some (c :: cs)
      have hsplit : utf8Encode (c :: cs) = utf8EncodeChar c ++ utf8Encode cs := by
        simp [utf8Encode]
      rw [hsplit]
      unfold utf8EncodeChar
      by_cases h1 : c.toNat < 128
      · simp only [if_pos h1, List.cons_append, List.nil_append]
        simp only [utf8Decode, if_pos h1]
        rw [ih f hcs, Char.ofNat_toNat]
      · by_cases h2 : c.toNat < 2048
        · have e1 : ¬ 192 + c.toNat / 64 < 128 := by omega
          have e2 : ¬ 192 + c.toNat / 64 < 192 := by omega
          have e3 : 192 + c.toNat / 64 < 224 := by omega
          have e4 : 128 ≤ 128 + c.toNat % 64 ∧ 128 + c.toNat % 64 < 192 := by omega
          simp only [if_neg h1, if_pos h2, List.cons_append, List.nil_append]
          simp only [utf8Decode, if_neg e1, if_neg e2, if_pos e3, if_pos e4]
          rw [ih f hcs]
          have harith : (192 + c.toNat / 64 - 192) * 64 + (128 + c.toNat % 64 - 128)
              = c.toNat := by omega
          rw [harith, Char.ofNat_toNat]
        · by_cases h3 : c.toNat < 65536
          · have e1 : ¬ 224 + c.toNat / 4096 < 128 := by omega
            have e2 : ¬ 224 + c.toNat / 4096 < 192 := by omega
            have e3 : ¬ 224 + c.toNat / 4096 < 224 := by omega
            have e4 : 224 + c.toNat / 4096 < 240 := by omega
            have e5 : (128 ≤ 128 + c.toNat / 64 % 64 ∧ 128 + c.toNat / 64 % 64 < 192) ∧
                128 ≤ 128 + c.toNat % 64 ∧ 128 + c.toNat % 64 < 192 := by omega
            simp only [if_neg h1, if_neg h2, if_pos h3, List.cons_append, List.nil_append]
            simp only [utf8Decode, if_neg e1, if_neg e2, if_neg e3, if_pos e4, if_pos e5]
            rw [ih f hcs]
            have harith : ((224 + c.toNat / 4096 - 224) * 64 + (128 + c.toNat / 64 % 64 - 128))
                * 64 + (128 + c.toNat % 64 - 128) = c.toNat := by omega
            rw [harith, Char.ofNat_toNat]
          · have e1 : ¬ 240 + c.toNat / 262144 < 128 := by omega
            have e2 : ¬ 240 + c.toNat / 262144 < 192 := by omega
            have e3 : ¬ 240 + c.toNat / 262144 < 224 := by omega
            have e4 : ¬ 240 + c.toNat / 262144 < 240 := by omega
            have e5 : 240 + c.toNat / 262144 < 248 := by omega
            have e6 : (128 ≤ 128 + c.toNat / 4096 % 64 ∧ 128 + c.toNat / 4096 % 64 < 192) ∧
                (128 ≤ 128 + c.toNat / 64 % 64 ∧ 128 + c.toNat / 64 % 64 < 192) ∧
                128 ≤ 128 + c.toNat % 64 ∧ 128 + c.toNat % 64 < 192 := by omega
            simp only [if_neg h1, if_neg h2, if_neg h3, List.cons_append, List.nil_append]
            simp only [utf8Decode, if_neg e1, if_neg e2, if_neg e3, if_neg e4, if_pos e5,
              if_pos e6]
            rw [ih f hcs]
            have harith : (((240 + c.toNat / 262144 - 240) * 64
                + (128 + c.toNat / 4096 % 64 - 128)) * 64
                + (128 + c.toNat / 64 % 64 - 128)) * 64
                + (128 + c.toNat % 64 - 128) = c.toNat := by omega
            rw [harith, Char.ofNat_toNat]

/-- Base64 alphabet characters decode back to their sextet. -/
theorem b64char_dec : ∀ n < 64, b64charDec (b64char n) = some n := by decide

/-- Base64 alphabet characters are never the padding character. -/
theorem b64char_ne_pad : ∀ n < 64, b64char n ≠ '=' := by decide

/-- Decoding a base64 encoding of bytes recovers them (fuel-indexed
strong induction on the byte list, three bytes per step). -/
theorem b64_rt_aux : ∀ (k : Nat) (bs : List Nat), bs.length ≤ k →
    (∀ b ∈ bs, b < 256) → b64decode (b64encode bs) = some bs := by
  intro k
  induction k with
  | zero =>
    intro bs hlen _
    have hnil : bs = [] := List.eq_nil_of_length_eq_zero (by omega)
    subst hnil
    rfl
  | succ k ih =>
    intro bs hlen hb
    rcases bs with _ | ⟨b1, _ | ⟨b2, _ | ⟨b3, rest⟩⟩⟩
    · rfl
    · have hb1 : b1 < 256 := hb b1 (by simp)
      have h1 : b1 / 4 < 64 := by omega
      have h2 : b1 % 4 * 16 < 64 := by omega
      simp only [b64encode, b64decode, b64char_dec _ h1, b64char_dec _ h2, if_pos rfl,
        and_self, if_true]
      have harith : b1 / 4 * 4 + b1 % 4 = b1 := by omega
      simp [harith]
    · have hb1 : b1 < 256 := hb b1 (by simp)
      have hb2 : b2 < 256 := hb b2 (by simp)
      have h1 : b1 / 4 < 64 := by omega
      have h2 : b1 % 4 * 16 + b2 / 16 < 64 := by omega
      have h3 : b2 % 16 * 4 < 64 := by omega
      have hne3 : b64char (b2 % 16 * 4) ≠ '=' := b64char_ne_pad _ h3
      simp only [b64encode, b64decode, b64char_dec _ h1, b64char_dec _ h2,
        b64char_dec _ h3, if_neg hne3, if_pos rfl, if_true]
      have e1 : b1 / 4 * 4 + (b1 % 4 * 16 + b2 / 16) / 16 = b1 := by omega
      have e2 : (b1 % 4 * 16 + b2 / 16) % 16 * 16 + b2 % 16 = b2 := by omega
      simp [e1, e2]
    · have hb1 : b1 < 256 := hb b1 (by simp)
      have hb2 : b2 < 256 := hb b2 (by simp)
      have hb3 : b3 < 256 := hb b3 (by simp)
      have h1 : b1 / 4 < 64 := by omega
      have h2 : b1 % 4 * 16 + b2 / 16 < 64 := by omega
      have h3 : b2 % 16 * 4 + b3 / 64 < 64 := by omega
      have h4 : b3 % 64 < 64 := by omega
      have hne3 : b64char (b2 % 16 * 4 + b3 / 64) ≠ '=' := b64char_ne_pad _ h3
      have hne4 : b64char (b3 % 64) ≠ '=' := b64char_ne_pad _ h4
      have hrest : b64decode (b64encode rest) = some rest := by
        refine ih rest (by simp at hlen; omega) ?_
        intro b hbm
        exact hb b (by simp [hbm])
      simp only [b64encode, b64decode, b64char_dec _ h1, b64char_dec _ h2,
        b64char_dec _ h3, b64char_dec _ h4, if_neg hne3, if_neg hne4, hrest]
      have e1 : b1 / 4 * 4 + (b1 % 4 * 16 + b2 / 16) / 16 = b1 := by omega
      have e2 : (b1 % 4 * 16 + b2 / 16) % 16 * 16 + (b2 % 16 * 4 + b3 / 64) / 4 = b2 := by
        omega
      have e3 : (b2 % 16 * 4 + b3 / 64) % 4 * 64 + b3 % 64 = b3 := by omega
      simp [e1, e2, e3]

/-- Decoding a base64 encoding of bytes recovers them. -/
theorem b64_rt (bs : List Nat) (hb : ∀ b ∈ bs, b < 256) :
    b64decode (b64encode bs) = some bs :=
  b64_rt_aux bs.length bs le_rfl hb

/-- Claim C7: the record codec round-trips exactly.  For every schema
instance (a field-name/value list with integer and string fields, as the
wire format of spec §6 prescribes), decoding the encoded message body —
`{"content": urlsafe_b64encode(model_dump_json(record).encode("utf-8"))}` —
yields the instance's fields unchanged. -/
theorem C7_codec_round_trip (fields : List (List Char × JVal)) :
    record_decode (record_encode fields) = some fields := by
  unfold record_encode record_decode
  have h1 := parseObjFull_printObj fields
  have h2 := b64_rt (utf8Encode (printObj fields)) (utf8Encode_bytes_lt (printObj fields))
  have h3 := utf8Decode_encode (printObj fields) (utf8Encode (printObj fields)).length
    (utf8_len_ge (printObj fields))
  rw [parseObjFull_printObj]
  simp [h2, h3, h1]

/-! ### Shared lemmas about the modelled cursor operations -/

/-- A key found in the prefix is still found after appending. -/
theorem lookup_append_isSome {l l2 : List (Nat × List V)} {x : Nat}
    (h : (l.lookup x).isSome) : ((l ++ l2).lookup x).isSome := by
  induction l with
  | nil => simp [List.lookup] at h
  | cons p t ih =>
    obtain ⟨k, w⟩ := p
    by_cases hk : x = k
    · simp [List.lookup_cons, hk]
    · simp only [List.lookup_cons, beq_false_of_ne hk] at h ⊢
      rw [List.cons_append]
      simp only [List.lookup_cons, beq_false_of_ne hk]
      exact ih h

/-- The key of a freshly appended pair is found. -/
theorem lookup_append_self (l : List (Nat × List V)) (x : Nat) (w : List V) :
    ((l ++ [(x, w)]).lookup x).isSome := by
  induction l with
  | nil => simp [List.lookup]
  | cons p t ih =>
    obtain ⟨k, u⟩ := p
    by_cases hk : x = k
    · simp [List.lookup_cons, hk]
    · rw [List.cons_append]
      simp only [List.lookup_cons, beq_false_of_ne hk]
      exact ih

/-- A present key is found. -/
theorem lookup_isSome_of_mem {l : List (Nat × List V)} {k : Nat} {w : List V}
    (h : (k, w) ∈ l) : (l.lookup k).isSome := by
  induction l with
  | nil => simp at h
  | cons p t ih =>
    obtain ⟨k2, u⟩ := p
    rcases List.mem_cons.mp h with heq | hmem
    · cases heq
      simp [List.lookup_cons]
    · by_cases hk : k = k2
      · simp [List.lookup_cons, hk]
      · simpa [List.lookup_cons, beq_false_of_ne hk] using ih hmem

/-- Replacing one record's content in the primary channel changes no keys:
any id found before is found after. -/
theorem lookup_map_replace (l : List (Nat × List V)) (x id : Nat) (newV : List V) :
    ((l.map (fun p => if p.1 = id then (id, newV) else p)).lookup x).isSome
      = (l.lookup x).isSome := by
  induction l with
  | nil => simp
  | cons p t ih =>
    obtain ⟨k, u⟩ := p
    by_cases hk : k = id
    · subst hk
      by_cases hx : x = k
      · simp [List.lookup_cons, hx]
      · simpa [List.lookup_cons, beq_false_of_ne hx] using ih
    · by_cases hx : x = k
      · simp [List.lookup_cons, hx, hk]
      · simpa [List.lookup_cons, beq_false_of_ne hx, hk] using ih

/-- Fetching a list of ids that all exist in the primary channel returns
them unchanged. -/
theorem fetch_all_ok (st : TableState V) (l : List Nat)
    (h : ∀ x ∈ l, (st.main.lookup x).isSome) : fetch_all st l = .ok l := by
  induction l with
  | nil => rfl
  | cons x xs ih =>
    have hx := h x (by simp)
    simp only [fetch_all, hx, if_true]
    rw [ih (fun y hy => h y (by simp [hy]))]
    rfl

/-- `_inc_records` below capacity: the counter and its persisted copy are
both advanced, nothing else changes. -/
theorem inc_records_ok (st : TableState V)
    (h : st.current_records + 1 ≤ (st.max_records : Int)) :
    inc_records st = .ok { st with
      current_records := st.current_records + 1
      persisted_current := st.current_records + 1
      persisted_max := st.max_records } := by
  unfold inc_records
  rw [if_neg (by omega)]

/-- `_write_index_record` on a tombstoned home bucket: increment (and
persist) the counter, place the fresh entry in the home bucket. -/
theorem write_index_none (st : TableState V) (f index : Nat) (hashed : Int) (id : Nat)
    (ch : List Bucket) (hch : st.chans[f]? = some ch)
    (hb : ch[index]? = some none)
    (hno : st.current_records + 1 ≤ (st.max_records : Int)) :
    write_index_record st f index hashed id = .ok { st with
      current_records := st.current_records + 1
      persisted_current := st.current_records + 1
      persisted_max := st.max_records
      chans := st.chans.set f (ch.set index (some ⟨hashed, [id]⟩)) } := by
  unfold write_index_record lookup_message
  rw [hch]
  dsimp only
  rw [hb]
  dsimp only
  rw [inc_records_ok st hno]
  rfl

/-- `_write_index_record` on a home bucket already keyed by the hash:
append the id to its `record_ids`, no counter change, no persist. -/
theorem write_index_same_key (st : TableState V) (f index : Nat) (hashed : Int) (id : Nat)
    (ch : List Bucket) (ids : List Nat) (hch : st.chans[f]? = some ch)
    (hb : ch[index]? = some (some ⟨hashed, ids⟩)) :
    write_index_record st f index hashed id = .ok { st with
      chans := st.chans.set f (ch.set index (some ⟨hashed, ids ++ [id]⟩)) } := by
  unfold write_index_record lookup_message
  rw [hch]
  dsimp only
  rw [hb]
  dsimp only
  rw [if_pos rfl]

/-- Reduction of the `Except` monad's bind on a success value. -/
theorem except_bind_ok {ε α β : Type} (a : α) (f : α → Except ε β) :
    (Except.ok (ε := ε) a >>= f) = f a := rfl

/-- The empty query tail of the per-field loop. -/
theorem find_sets_nil (hsh : V → Int) (st : TableState V) :
    find_sets hsh st [] = .ok [] := rfl

/-- A single-pair query whose home bucket carries the queried hash returns
exactly that bucket's ids as a set. -/
theorem find_single_hit (hsh : V → Int) (st : TableState V) (f : Nat) (v : V)
    (ch : List Bucket) (ids : List Nat)
    (hm : st.max_records ≠ 0)
    (hch : st.chans[f]? = some ch)
    (hb : ch[to_index (hsh v) st.max_records]? = some (some ⟨hsh v, ids⟩))
    (hfetch : ∀ x ∈ ids, (st.main.lookup x).isSome) :
    find_records hsh st [(f, v)] = .ok ids.dedup := by
  unfold find_records find_sets as_hashed lookup_message
  rw [hch]
  try dsimp only
  rw [if_neg hm]
  simp only [except_bind_ok]
  try dsimp only
  rw [hb]
  try dsimp only
  rw [if_pos rfl, find_sets_nil]
  simp only [except_bind_ok]
  try dsimp only
  simp only [List.isEmpty_cons, Bool.false_eq_true, if_false, List.flatten_cons,
    List.flatten_nil, List.append_nil]
  exact fetch_all_ok st _ (fun x hx => hfetch x (List.mem_dedup.mp hx))

/-- A single-pair query whose home bucket is a tombstone returns nothing. -/
theorem find_single_null (hsh : V → Int) (st : TableState V) (f : Nat) (v : V)
    (ch : List Bucket)
    (hm : st.max_records ≠ 0)
    (hch : st.chans[f]? = some ch)
    (hb : ch[to_index (hsh v) st.max_records]? = some none) :
    find_records hsh st [(f, v)] = .ok [] := by
  unfold find_records find_sets as_hashed lookup_message
  rw [hch]
  try dsimp only
  rw [if_neg hm]
  simp only [except_bind_ok]
  try dsimp only
  rw [hb]
  try dsimp only
  rw [find_sets_nil]
  rfl

/-- Reduction of `_as_hashed` on a non-empty table. -/
theorem as_hashed_ok (hashed : Int) (st : TableState V) (hm : st.max_records ≠ 0) :
    as_hashed (V := V) hashed st = .ok (hashed, to_index hashed st.max_records) := by
  unfold as_hashed
  rw [if_neg hm]

/-- `HomeFree` is stable under state changes that leave the field's
channel, the capacity and the primary channel untouched. -/
theorem HomeFree_frame [DecidableEq V] (hsh : V → Int) {st st' : TableState V} {f : Nat} {v : V}
    {id : Nat}
    (hch : st'.chans[f]? = st.chans[f]?)
    (hmax : st'.max_records = st.max_records)
    (hmain : st'.main = st.main)
    (h : HomeFree hsh st f v id) : HomeFree hsh st' f v id := by
  obtain ⟨ch, h1, h2, h3⟩ := h
  refine ⟨ch, ?_, ?_, ?_⟩
  · rw [hch]; exact h1
  · rw [hmax]; exact h2
  · rw [hmax, hmain]; exact h3

/-- The per-field index-write loop of `add_record`, run over collision-free
home buckets with room to spare: it succeeds, touches only the written
channels, and afterwards every written field's home bucket is keyed by its
value's hash with the fresh id recorded exactly once. -/
theorem add_fields_spec [DecidableEq V] (hsh : V → Int) (id : Nat) :
    ∀ (L : List (Nat × V)) (st : TableState V),
      (L.map Prod.fst).Nodup →
      (∀ p ∈ L, HomeFree hsh st p.1 p.2 id) →
      st.max_records ≠ 0 →
      st.current_records + L.length ≤ (st.max_records : Int) →
      (st.main.lookup id).isSome →
      ∃ st', add_record_fields hsh id L st = .ok st' ∧
        st'.max_records = st.max_records ∧
        st'.main = st.main ∧
        st'.next_id = st.next_id ∧
        st'.current_records ≤ st.current_records + L.length ∧
        (∀ j, j ∉ L.map Prod.fst → st'.chans[j]? = st.chans[j]?) ∧
        (∀ p ∈ L, HomeHas hsh st' p.1 p.2 id) := by
  intro L
  induction L with
  | nil =>
    intro st _ _ _ _ _
    exact ⟨st, rfl, rfl, rfl, rfl, by simp, fun j _ => rfl, by simp⟩
  | cons hd rest ih =>
    obtain ⟨f, v⟩ := hd
    intro st hnodup hfree hm hno hid
    obtain ⟨ch, hch, hlen, hcase⟩ := hfree (f, v) (by simp)
    have hidx : to_index (hsh v) st.max_records < ch.length := by
      rw [hlen]
      exact Nat.mod_lt _ (Nat.pos_of_ne_zero hm)
    have hfx : f < st.chans.length := by
      rcases List.getElem?_eq_some.mp hch with ⟨hl, -⟩
      exact hl
    have hnodup' : (f :: rest.map Prod.fst).Nodup := by simpa using hnodup
    have hnodup2 := List.nodup_cons.mp hnodup'
    have hstep : ∃ st1 newIds,
        write_index_record st f (to_index (hsh v) st.max_records) (hsh v) id = .ok st1 ∧
        st1.chans = st.chans.set f
          (ch.set (to_index (hsh v) st.max_records) (some ⟨hsh v, newIds⟩)) ∧
        st1.max_records = st.max_records ∧ st1.main = st.main ∧
        st1.next_id = st.next_id ∧
        st1.current_records ≤ st.current_records + 1 ∧
        newIds.count id = 1 ∧
        (∀ x ∈ newIds, (st.main.lookup x).isSome) := by
      rcases hcase with hb | ⟨ids, hb, hnotin, hfetch⟩
      · have hw := write_index_none st f (to_index (hsh v) st.max_records) (hsh v) id
          ch hch hb (by simp only [List.length_cons] at hno; omega)
        refine ⟨_, [id], hw, rfl, rfl, rfl, rfl, by simp, by simp, ?_⟩
        intro x hx
        rcases List.mem_singleton.mp hx with rfl
        exact hid
      · have hw := write_index_same_key st f (to_index (hsh v) st.max_records) (hsh v) id
          ch ids hch hb
        refine ⟨_, ids ++ [id], hw, rfl, rfl, rfl, rfl, by simp, ?_, ?_⟩
        · rw [List.count_append]
          rw [List.count_eq_zero.mpr hnotin]
          simp
        · intro x hx
          rcases List.mem_append.mp hx with hx | hx
          · exact hfetch x hx
          · rcases List.mem_singleton.mp hx with rfl
            exact hid
    obtain ⟨st1, newIds, hst1, hchans1, hmax1, hmain1, hnext1, hcur1, hcount1, hfetch1⟩ :=
      hstep
    have hrest : ∀ p ∈ rest, HomeFree hsh st1 p.1 p.2 id := by
      intro p hp
      have hne : f ≠ p.1 := by
        intro hcontra
        exact hnodup2.1 (hcontra ▸ List.mem_map_of_mem Prod.fst hp)
      refine HomeFree_frame hsh ?_ hmax1 hmain1 (hfree p (by simp [hp]))
      rw [hchans1]
      exact List.getElem?_set_ne hne
    obtain ⟨st', heq', hmax', hmain', hnext', hcur', hframe', hhas'⟩ :=
      ih st1 hnodup2.2 hrest (by rw [hmax1]; exact hm)
        (by
          rw [hmax1]
          simp only [List.length_cons] at hno
          omega)
        (by rw [hmain1]; exact hid)
    refine ⟨st', ?_, hmax'.trans hmax1, hmain'.trans hmain1, hnext'.trans hnext1, ?_,
      ?_, ?_⟩
    · simp only [add_record_fields]
      rw [as_hashed_ok (hsh v) st hm]
      simp only [except_bind_ok]
      rw [hst1]
      simp only [except_bind_ok]
      exact heq'
    · have := hcur'
      simp only [List.length_cons]
      omega
    · intro j hj
      simp only [List.map_cons, List.mem_cons] at hj
      push_neg at hj
      rw [hframe' j hj.2, hchans1]
      exact List.getElem?_set_ne (Ne.symm hj.1)
    · intro p hp
      rcases List.mem_cons.mp hp with rfl | hp
      · have hfr : f ∉ rest.map Prod.fst := hnodup2.1
        refine ⟨ch.set (to_index (hsh v) st.max_records) (some ⟨hsh v, newIds⟩), newIds,
          ?_, ?_, ?_, hcount1, ?_⟩
        · rw [hframe' f hfr, hchans1]
          exact List.getElem?_set_self hfx
        · rw [List.length_set, hlen, hmax'.trans hmax1]
        · rw [hmax'.trans hmax1]
          exact List.getElem?_set_self hidx
        · intro x hx
          rw [hmain'.trans hmain1]
          exact hfetch1 x hx
      · exact hhas' p hp

/-- Claim C2, amended: for a record added via `add_record` into a table
where no resize is triggered (`current_records` plus the field count stays
within `max_records`) and no hash collision is involved (each field value's
home bucket is a tombstone or already keyed by that value's hash, without
the fresh location), an immediately following single-field `find_records`
on any field of the record returns a result containing the new record's
location exactly once — simultaneously for every field.  (The original
claim, without the collision proviso, is refuted by
`C2_counterexample`.) -/
theorem C2_insert_then_find [DecidableEq V] (hsh : V → Int) (st : TableState V) (vals : List V)
    (hm : st.max_records ≠ 0)
    (hfree : ∀ p ∈ vals.enum, HomeFree hsh st p.1 p.2 st.next_id)
    (hnores : st.current_records + vals.length ≤ (st.max_records : Int)) :
    ∃ st', add_record hsh st vals = .ok (st.next_id, st') ∧
      ∀ i (hi : i < vals.length),
        ∃ res, find_records hsh st' [(i, vals[i])] = .ok res ∧
          res.count st.next_id = 1 := by
  set st1 : TableState V :=
    { st with main := st.main ++ [(st.next_id, vals)], next_id := st.next_id + 1 }
    with hst1
  have hfree1 : ∀ p ∈ vals.enum, HomeFree hsh st1 p.1 p.2 st.next_id := by
    intro p hp
    obtain ⟨ch, h1, h2, h3⟩ := hfree p hp
    refine ⟨ch, h1, h2, ?_⟩
    rcases h3 with h3 | ⟨ids, hb, hni, hf⟩
    · exact Or.inl h3
    · exact Or.inr ⟨ids, hb, hni, fun x hx => lookup_append_isSome (hf x hx)⟩
  obtain ⟨st', heq, hmax', hmain', -, -, -, hhas⟩ :=
    add_fields_spec hsh st.next_id vals.enum st1
      (by rw [List.enum_map_fst]; exact List.nodup_range _)
      hfree1 hm (by simpa using hnores)
      (lookup_append_self st.main st.next_id vals)
  refine ⟨st', ?_, ?_⟩
  · unfold add_record
    dsimp only
    rw [← hst1, heq]
    rfl
  · intro i hi
    have hp : (i, vals[i]) ∈ vals.enum := by
      have hlen2 : i < vals.enum.length := by simpa using hi
      have hg : vals.enum[i] = (i, vals[i]) := List.getElem_enum vals i hlen2
      exact hg ▸ List.getElem_mem hlen2
    obtain ⟨ch, ids, hch, hlen, hb, hcount, hfetch⟩ := hhas (i, vals[i]) hp
    refine ⟨ids.dedup, find_single_hit hsh st' i (vals[i]) ch ids
      (by rw [hmax']; simpa [hst1] using hm) hch hb hfetch, ?_⟩
    rw [List.count_dedup]
    have hmem : st.next_id ∈ ids := by
      by_contra hn
      rw [List.count_eq_zero.mpr hn] at hcount
      omega
    rw [if_pos hmem]

/-- Witness for `C2_insert_then_find`: the two-field table
`{username, password}` of capacity 4, inserting the record `[1, 2]` into
the freshly created (all-tombstone) channels; both single-field lookups
return location 100 exactly once. -/
theorem C2_witness :
    ∃ st', add_record (fun v : Int => v) exampleTable2 [1, 2]
        = .ok (exampleTable2.next_id, st') ∧
      ∀ i (hi : i < [(1 : Int), 2].length),
        ∃ res, find_records (fun v : Int => v) st' [(i, [(1 : Int), 2][i])] = .ok res ∧
          res.count exampleTable2.next_id = 1 := by
  refine C2_insert_then_find (fun v => v) exampleTable2 [1, 2] (by decide) ?_ (by decide)
  intro p hp
  have hp2 : p = (0, (1 : Int)) ∨ p = (1, (2 : Int)) := by
    simpa [List.enum] using hp
  rcases hp2 with rfl | rfl
  · exact ⟨[none, none, none, none], rfl, rfl, Or.inl rfl⟩
  · exact ⟨[none, none, none, none], rfl, rfl, Or.inl rfl⟩

/-- Reduction of the `Except` monad's bind on an error. -/
theorem except_bind_error {ε α β : Type} (e : ε) (f : α → Except ε β) :
    (Except.error (α := α) e >>= f) = .error e := rfl

/-- A successful `_inc_records` always ends with the metadata persisted:
the persisted counters equal the in-memory ones. -/
theorem inc_records_sync {st st' : TableState V}
    (h : inc_records st = .ok st') :
    st'.persisted_current = st'.current_records ∧
      st'.persisted_max = st'.max_records := by
  unfold inc_records at h
  dsimp only at h
  split at h
  · exact Except.noConfusion h
  · cases h
    exact ⟨rfl, rfl⟩

/-- Any successful `_write_index_record` leaves the persisted counters in
sync with the in-memory ones if they were in sync before: the tombstone and
collision branches persist through `_inc_records`, and the same-key branch
changes neither side. -/
theorem write_index_record_sync {st st' : TableState V} {f index : Nat}
    {hashed : Int} {id : Nat}
    (h : write_index_record st f index hashed id = .ok st')
    (hs : st.persisted_current = st.current_records ∧
      st.persisted_max = st.max_records) :
    st'.persisted_current = st'.current_records ∧
      st'.persisted_max = st'.max_records := by
  unfold write_index_record lookup_message at h
  cases hc : st.chans[f]? with
  | none =>
    rw [hc] at h
    exact Except.noConfusion h
  | some ch =>
    rw [hc] at h
    dsimp only at h
    cases hb : ch[index]? with
    | none =>
      rw [hb] at h
      exact Except.noConfusion h
    | some bucket =>
      rw [hb] at h
      dsimp only at h
      cases bucket with
      | none =>
        dsimp only at h
        cases hw : inc_records st with
        | error e =>
          rw [hw, except_bind_error] at h
          exact Except.noConfusion h
        | ok st1 =>
          rw [hw, except_bind_ok] at h
          injection h with h2
          subst h2
          obtain ⟨s1, s2⟩ := inc_records_sync hw
          exact ⟨s1, s2⟩
      | some e =>
        dsimp only at h
        by_cases hk : e.key = hashed
        · rw [if_pos hk] at h
          injection h with h2
          subst h2
          exact hs
        · rw [if_neg hk] at h
          cases hw : inc_records st with
          | error e2 =>
            rw [hw, except_bind_error] at h
            exact Except.noConfusion h
          | ok st1 =>
            rw [hw, except_bind_ok] at h
            cases hfc : find_collision_message (fun j => ch[j]?) (fun b => b.isNone)
                st1.max_records index with
            | found off val =>
              rw [hfc] at h
              injection h with h2
              subst h2
              obtain ⟨s1, s2⟩ := inc_records_sync hw
              exact ⟨s1, s2⟩
            | corrupt =>
              rw [hfc] at h
              exact Except.noConfusion h
            | lookFail =>
              rw [hfc] at h
              exact Except.noConfusion h
            | fuelOut =>
              rw [hfc] at h
              exact Except.noConfusion h

/-- The whole per-field loop of `add_record` preserves the sync between
in-memory and persisted counters. -/
theorem add_fields_sync (hsh : V → Int) (id : Nat) :
    ∀ (L : List (Nat × V)) (st st' : TableState V),
      add_record_fields hsh id L st = .ok st' →
      st.persisted_current = st.current_records ∧
        st.persisted_max = st.max_records →
      st'.persisted_current = st'.current_records ∧
        st'.persisted_max = st'.max_records := by
  intro L
  induction L with
  | nil =>
    intro st st' h hs
    simp only [add_record_fields] at h
    cases h
    exact hs
  | cons hd rest ih =>
    obtain ⟨f, v⟩ := hd
    intro st st' h hs
    simp only [add_record_fields] at h
    unfold as_hashed at h
    by_cases hm : st.max_records = 0
    · rw [if_pos hm, except_bind_error] at h
      exact Except.noConfusion h
    · rw [if_neg hm, except_bind_ok] at h
      dsimp only at h
      cases hw : write_index_record st f (to_index (hsh v) st.max_records) (hsh v) id with
      | error e =>
        rw [hw, except_bind_error] at h
        exact Except.noConfusion h
      | ok st1 =>
        rw [hw, except_bind_ok] at h
        exact ih st1 st' h (write_index_record_sync hw hs)

/-- Claim C8, amended: the metadata mutations of the insert path are
persisted before `add_record` returns — starting from a state whose
persisted metadata matches the in-memory metadata, every successful
`add_record` ends in such a state again, because `_inc_records` persists
immediately after every counter change (and the same-key branch changes
nothing).  The `current_records` decrements inside `update_record` and
`delete_record`, by contrast, are not followed by any persist, so those two
operations leave the persisted metadata stale (refuted concretely by
`C8_counterexample`). -/
theorem C8_insert_persists (hsh : V → Int) (st : TableState V) (vals : List V)
    (id : Nat) (st' : TableState V)
    (h : add_record hsh st vals = .ok (id, st'))
    (hs : st.persisted_current = st.current_records ∧
      st.persisted_max = st.max_records) :
    st'.persisted_current = st'.current_records ∧
      st'.persisted_max = st'.max_records := by
  unfold add_record at h
  dsimp only at h
  cases hw : add_record_fields hsh st.next_id vals.enum
      { st with main := st.main ++ [(st.next_id, vals)], next_id := st.next_id + 1 } with
  | error e =>
    rw [hw, except_bind_error] at h
    exact Except.noConfusion h
  | ok st2 =>
    rw [hw, except_bind_ok] at h
    injection h with h2
    injection h2 with ha hb
    subst hb
    exact add_fields_sync hsh st.next_id vals.enum _ _ hw hs

/-- Witness for `C8_insert_persists`: inserting the record `[8]` into the
fresh one-field table of capacity 4 ends with counters 1/4 both in memory
and persisted. -/
theorem C8_witness :
    ∃ st', add_record (fun v : Int => v) exampleTable1 [8] = .ok (100, st') ∧
      st'.persisted_current = st'.current_records ∧
      st'.persisted_max = st'.max_records :=
  ⟨⟨[(100, [8])], [[some ⟨8, [100]⟩, none, none, none]], 1, 4, 1, 4, 101⟩, by decide,
    C8_insert_persists (fun v : Int => v) exampleTable1 [8] 100 _ (by decide) ⟨rfl, rfl⟩⟩

/-! ### C4 — update reconciliation -/

/-- An id counted once is present. -/
theorem mem_of_count_one {l : List Nat} {a : Nat} (h : l.count a = 1) : a ∈ l := by
  by_contra hn
  rw [List.count_eq_zero.mpr hn] at h
  omega

/-- Zipping a list with itself yields only unchanged triples, wherever the
enumeration starts. -/
theorem allEq_zip_self (xs : List V) : ∀ n : Nat,
    AllEq (((xs.zip xs).enumFrom n).map (fun q => (q.1, q.2.1, q.2.2))) := by
  induction xs with
  | nil =>
    intro n p hp
    simp at hp
  | cons x xs ih =>
    intro n p hp
    rw [List.zip_cons_cons, List.enumFrom_cons, List.map_cons] at hp
    rcases List.mem_cons.mp hp with rfl | hp
    · rfl
    · exact ih (n + 1) p hp

/-- The update triples of a record whose single field `fIdx` changed from
`c` to `b` decompose into unchanged triples around the one changed
triple. -/
theorem zip_set_decomp (b : V) :
    ∀ (xs : List V) (fIdx n : Nat) (c : V), xs[fIdx]? = some c →
      ∃ L1 L2,
        (((xs.set fIdx b).zip xs).enumFrom n).map (fun q => (q.1, q.2.1, q.2.2))
          = L1 ++ (n + fIdx, b, c) :: L2 ∧ AllEq L1 ∧ AllEq L2 := by
  intro xs
  induction xs with
  | nil =>
    intro fIdx n c hc
    simp at hc
  | cons x xs ih =>
    intro fIdx n c hc
    cases fIdx with
    | zero =>
      have hcx : x = c := by simpa using hc
      subst hcx
      refine ⟨[], ((xs.zip xs).enumFrom (n + 1)).map (fun q => (q.1, q.2.1, q.2.2)),
        ?_, ?_, allEq_zip_self xs (n + 1)⟩
      · rw [List.set_cons_zero, List.zip_cons_cons, List.enumFrom_cons, List.map_cons]
        simp
      · intro p hp
        simp at hp
    | succ k =>
      have hc2 : xs[k]? = some c := by simpa using hc
      obtain ⟨L1, L2, heq, h1, h2⟩ := ih k (n + 1) c hc2
      refine ⟨(n, x, x) :: L1, L2, ?_, ?_, h2⟩
      · rw [List.set_cons_succ, List.zip_cons_cons, List.enumFrom_cons, List.map_cons,
          heq]
        have hn : n + 1 + k = n + (k + 1) := by omega
        rw [hn]
        rfl
      · intro p hp
        rcases List.mem_cons.mp hp with rfl | hp
        · rfl
        · exact h1 p hp

/-- `update_fields` skips over a prefix of unchanged triples. -/
theorem update_fields_skip [DecidableEq V] (hsh : V → Int) (id : Nat) :
    ∀ (L1 rest : List (Nat × V × V)) (st : TableState V), AllEq L1 →
      update_fields hsh id (L1 ++ rest) st = update_fields hsh id rest st := by
  intro L1
  induction L1 with
  | nil =>
    intro rest st _
    rfl
  | cons p t ih =>
    intro rest st hall
    obtain ⟨f, nv, ov⟩ := p
    have heq : nv = ov := hall (f, nv, ov) (by simp)
    rw [List.cons_append]
    simp only [update_fields, if_pos heq]
    exact ih rest st (fun q hq => hall q (by simp [hq]))

/-- `update_fields` over only unchanged triples is the identity. -/
theorem update_fields_alleq [DecidableEq V] (hsh : V → Int) (id : Nat)
    (L : List (Nat × V × V)) (st : TableState V) (h : AllEq L) :
    update_fields hsh id L st = .ok st := by
  have h2 := update_fields_skip hsh id L [] st h
  rwa [List.append_nil] at h2

/-- One changed triple of `update_fields`, under a tombstoned home bucket
for the new value and a distinct home bucket for the old value: the new
entry is written (with the counter incremented and persisted), then the old
bucket is tombstoned with the counter decremented (not persisted) if the id
was its only occupant, or the id is removed from it otherwise. -/
theorem update_fields_step [DecidableEq V] (hsh : V → Int) (id fIdx : Nat)
    (b a : V) (L2 : List (Nat × V × V)) (st : TableState V) (ch : List Bucket)
    (idsA : List Nat)
    (hm : st.max_records ≠ 0)
    (hba : b ≠ a)
    (hch : st.chans[fIdx]? = some ch)
    (hidx : to_index (hsh b) st.max_records ≠ to_index (hsh a) st.max_records)
    (hnew : ch[to_index (hsh b) st.max_records]? = some none)
    (hold : ch[to_index (hsh a) st.max_records]? = some (some ⟨hsh a, idsA⟩))
    (hmem : id ∈ idsA)
    (hnores : st.current_records + 1 ≤ (st.max_records : Int)) :
    update_fields hsh id ((fIdx, b, a) :: L2) st
      = update_fields hsh id L2 { st with
          chans := st.chans.set fIdx
            ((ch.set (to_index (hsh b) st.max_records) (some ⟨hsh b, [id]⟩)).set
              (to_index (hsh a) st.max_records)
              (if idsA.length = 1 then none
               else some ⟨hsh a, idsA.erase id⟩))
          current_records := if idsA.length = 1 then st.current_records
            else st.current_records + 1
          persisted_current := st.current_records + 1
          persisted_max := st.max_records } := by
  have hfx : fIdx < st.chans.length := (List.getElem?_eq_some.mp hch).1
  simp only [update_fields, if_neg hba]
  rw [as_hashed_ok (hsh b) st hm]
  simp only [except_bind_ok]
  rw [write_index_none st fIdx (to_index (hsh b) st.max_records) (hsh b) id ch hch
    hnew hnores]
  simp only [except_bind_ok]
  rw [as_hashed_ok (hsh a) { st with
    chans := st.chans.set fIdx
      (ch.set (to_index (hsh b) st.max_records) (some ⟨hsh b, [id]⟩))
    current_records := st.current_records + 1
    persisted_current := st.current_records + 1
    persisted_max := st.max_records } hm]
  simp only [except_bind_ok]
  try dsimp only
  rw [List.getElem?_set_self hfx]
  try dsimp only
  rw [show lookup_message
      (ch.set (to_index (hsh b) st.max_records) (some ⟨hsh b, [id]⟩))
      (to_index (hsh a) st.max_records) = .ok (some ⟨hsh a, idsA⟩) by
    unfold lookup_message
    rw [List.getElem?_set_ne hidx, hold]]
  try dsimp only
  by_cases hsingle : idsA.length = 1
  · simp only [if_pos hsingle]
    refine congrArg (update_fields hsh id L2) ?_
    dsimp only [dec_records_meta]
    rw [List.set_set, Int.add_sub_cancel]
  · simp only [if_neg hsingle, if_pos hmem]
    refine congrArg (update_fields hsh id L2) ?_
    rw [List.set_set]

/-- Claim C4, amended: update reconciliation holds when the new value's
home bucket is a tombstone and the old value's home bucket (a distinct
bucket, actually keyed by the old value's hash) holds the record's location
exactly once — i.e. in the absence of the collision displacement refuted by
`C4_counterexample`.  Changing field `fIdx` of the saved record `id` from
`a` to `b` then succeeds; afterwards `find_records {fIdx: a}` no longer
contains `id`, `find_records {fIdx: b}` contains it exactly once, every
unchanged field keeps finding it at its original value, and the old value's
bucket is tombstoned with `current_records` decremented when `id` was its
only occupant, or keeps the entry with just `id` removed otherwise. -/
theorem C4_update_reconciles [DecidableEq V] (hsh : V → Int) (st : TableState V)
    (id fIdx : Nat) (oldVals : List V) (a b : V) (ch : List Bucket)
    (idsA : List Nat)
    (hm : st.max_records ≠ 0)
    (hfind : st.main.find? (fun p => (p.1 : Int) == ((id : Nat) : Int))
      = some (id, oldVals))
    (hgeta : oldVals[fIdx]? = some a)
    (hba : b ≠ a)
    (hch : st.chans[fIdx]? = some ch)
    (hidx : to_index (hsh b) st.max_records ≠ to_index (hsh a) st.max_records)
    (hnew : ch[to_index (hsh b) st.max_records]? = some none)
    (hold : ch[to_index (hsh a) st.max_records]? = some (some ⟨hsh a, idsA⟩))
    (hcountA : idsA.count id = 1)
    (hfetchA : ∀ x ∈ idsA, (st.main.lookup x).isSome)
    (hnores : st.current_records + 1 ≤ (st.max_records : Int)) :
    ∃ st', update_record hsh st ((id : Nat) : Int) (oldVals.set fIdx b) = .ok st' ∧
      (∃ resA, find_records hsh st' [(fIdx, a)] = .ok resA ∧ id ∉ resA) ∧
      (∃ resB, find_records hsh st' [(fIdx, b)] = .ok resB ∧ resB.count id = 1) ∧
      (∀ j w, j ≠ fIdx → HomeHas hsh st j w id →
        ∃ res, find_records hsh st' [(j, w)] = .ok res ∧ res.count id = 1) ∧
      (∃ ch2, st'.chans[fIdx]? = some ch2 ∧
        ch2[to_index (hsh a) st.max_records]? =
          (if idsA.length = 1 then some none
           else some (some ⟨hsh a, idsA.erase id⟩))) ∧
      st'.current_records = (if idsA.length = 1 then st.current_records
        else st.current_records + 1) := by
  have hmem : id ∈ idsA := mem_of_count_one hcountA
  have hfx : fIdx < st.chans.length := (List.getElem?_eq_some.mp hch).1
  have hidxAlt : to_index (hsh a) st.max_records < ch.length :=
    (List.getElem?_eq_some.mp hold).1
  have hidxBlt : to_index (hsh b) st.max_records < ch.length :=
    (List.getElem?_eq_some.mp hnew).1
  have hmainid : (st.main.lookup id).isSome :=
    lookup_isSome_of_mem (List.mem_of_find?_eq_some hfind)
  refine ⟨{
      main := st.main.map (fun p => if p.1 = id then (id, oldVals.set fIdx b) else p),
      chans := st.chans.set fIdx
        ((ch.set (to_index (hsh b) st.max_records) (some ⟨hsh b, [id]⟩)).set
          (to_index (hsh a) st.max_records)
          (if idsA.length = 1 then none
           else some ⟨hsh a, idsA.erase id⟩)),
      current_records := if idsA.length = 1 then st.current_records
        else st.current_records + 1,
      max_records := st.max_records,
      persisted_current := st.current_records + 1,
      persisted_max := st.max_records,
      next_id := st.next_id }, ?_, ?_, ?_, ?_, ?_, ?_⟩
  · unfold update_record
    rw [if_neg (by omega : ¬ ((id : Nat) : Int) = -1), hfind]
    try dsimp only
    obtain ⟨L1, L2, hLeq, hA1, hA2⟩ := zip_set_decomp b oldVals fIdx 0 a hgeta
    simp only [Nat.zero_add] at hLeq
    rw [show ((oldVals.set fIdx b).zip oldVals).enum
        = ((oldVals.set fIdx b).zip oldVals).enumFrom 0 from rfl, hLeq]
    rw [update_fields_skip hsh id L1 _ _ hA1]
    rw [update_fields_step hsh id fIdx b a L2
      { st with main := st.main.map (fun p => if p.1 = id then (id, oldVals.set fIdx b) else p) }
      ch idsA hm hba hch hidx hnew hold hmem hnores]
    rw [update_fields_alleq hsh id L2 _ hA2]
    try rfl
  · by_cases hsingle : idsA.length = 1
    · refine ⟨[], ?_, by simp⟩
      refine find_single_null hsh _ fIdx a _ hm (List.getElem?_set_self hfx) ?_
      rw [List.getElem?_set_self (by rw [List.length_set]; exact hidxAlt)]
      rw [if_pos hsingle]
    · refine ⟨(idsA.erase id).dedup, ?_, ?_⟩
      · refine find_single_hit hsh _ fIdx a _ (idsA.erase id) hm
          (List.getElem?_set_self hfx) ?_ ?_
        · rw [List.getElem?_set_self (by rw [List.length_set]; exact hidxAlt)]
          rw [if_neg hsingle]
        · intro x hx
          rw [lookup_map_replace]
          exact hfetchA x (List.mem_of_mem_erase hx)
      · intro hmem2
        rw [List.mem_dedup] at hmem2
        have h0 : (idsA.erase id).count id = 0 := by
          rw [List.count_erase_self, hcountA]
        exact absurd hmem2 (List.count_eq_zero.mp h0)
  · refine ⟨[id].dedup, ?_, by simp⟩
    refine find_single_hit hsh _ fIdx b _ [id] hm (List.getElem?_set_self hfx) ?_ ?_
    · rw [List.getElem?_set_ne (Ne.symm hidx)]
      exact List.getElem?_set_self hidxBlt
    · intro x hx
      rcases List.mem_singleton.mp hx with rfl
      rw [lookup_map_replace]
      exact hmainid
  · intro j w hj hhas
    obtain ⟨chj, idsj, hchj, hlenj, hbj, hcountj, hfetchj⟩ := hhas
    refine ⟨idsj.dedup, ?_, ?_⟩
    · refine find_single_hit hsh _ j w chj idsj hm ?_ hbj ?_
      · rw [List.getElem?_set_ne (Ne.symm hj)]
        exact hchj
      · intro x hx
        rw [lookup_map_replace]
        exact hfetchj x hx
    · rw [List.count_dedup, if_pos (mem_of_count_one hcountj)]
  · refine ⟨_, List.getElem?_set_self hfx, ?_⟩
    rw [List.getElem?_set_self (by rw [List.length_set]; exact hidxAlt)]
    rw [apply_ite some]
  · rfl

/-- Witness for `C4_update_reconciles`: updating the single record `[1]`
(location 100) of a one-field table of capacity 4 to `[2]`.  The old
value's bucket 1 is a singleton, so it is tombstoned and the counter
decremented; the record is found at value 2 and no longer at value 1. -/
theorem C4_witness :
    ∃ st', update_record (fun v : Int => v) exampleTable3 ((100 : Nat) : Int)
        ([(1 : Int)].set 0 2) = .ok st' ∧
      (∃ resA, find_records (fun v : Int => v) st' [(0, (1 : Int))] = .ok resA ∧
        100 ∉ resA) ∧
      (∃ resB, find_records (fun v : Int => v) st' [(0, (2 : Int))] = .ok resB ∧
        resB.count 100 = 1) ∧
      (∀ j w, j ≠ 0 → HomeHas (fun v : Int => v) exampleTable3 j w 100 →
        ∃ res, find_records (fun v : Int => v) st' [(j, w)] = .ok res ∧
          res.count 100 = 1) ∧
      (∃ ch2, st'.chans[0]? = some ch2 ∧
        ch2[to_index (1 : Int) exampleTable3.max_records]? =
          (if ([100] : List Nat).length = 1 then some none
           else some (some ⟨(1 : Int), ([100] : List Nat).erase 100⟩))) ∧
      st'.current_records = (if ([100] : List Nat).length = 1
        then exampleTable3.current_records
        else exampleTable3.current_records + 1) :=
  C4_update_reconciles (fun v => v) exampleTable3 100 0 [1] 1 2
    [none, some ⟨1, [100]⟩, none, none] [100]
    (by decide) (by decide) rfl (by decide) rfl (by decide) rfl rfl
    (by decide) (by decide) (by decide)

end Discobase
